import Mathlib

/-!
Verification development for the Odemis tile-registration engine
(`src/odemis/acq/stitching/_registrar.py`): a shallow embedding of
`IdentityRegistrar` and `ShiftRegistrar` together with theorems about the
claims of the specification.

Modelling conventions:

* Python floats are modelled as exact rationals.  To keep every definition
  executable by kernel reduction we use an unnormalised fraction type `Frac`
  (a pair of integers, denominator kept positive by every operation used);
  `Frac.toRat` interprets it in `ℚ` and a family of bridge lemmas shows the
  operations agree with rational arithmetic.
* Match scores are floats of the form `covar / (sqrt varA * sqrt varB)` in the
  source.  We represent a score by its signed square `r * |r|`, which is an
  exact rational (`covar * |covar| / (varA * varB)`) and a strictly monotone
  image of `r`, so every comparison performed by the source (`<`, `>`, `>=`,
  `== 0`, comparisons between two scores) is faithfully represented by the
  corresponding comparison of signed squares (see `mul_abs_lt_mul_abs_iff`).
  Thresholds are squared accordingly inside the `Score` comparison helpers.
* The plausible-shift guard of `_estimateMatch` compares
  `hypot(shift)` with `sqrt 2 * (tsize - osize) ± osize * 0.6`.  These are
  elements of `ℚ[√2]`; order on that field is decidable and we implement it
  by an integer sign analysis (`sqrt2NonnegZ`), with bridge lemmas that show
  it means exactly the real-number inequality with `Real.sqrt`.
* Python `int(x)` truncates toward zero: `Frac.pyint`.
* Python list indexing (including negative indices) is `pyIdx`/`pySet`;
  an out-of-range access models Python's `IndexError`.
* The external cross-correlation kernel `MeasureShift` (imported from
  `odemis.acq.drift`, not part of the registrar) is an oracle parameter.
* numpy pixel data is modelled as integer-valued (`Image := ℤ → ℤ → ℤ`);
  an empty overlap region makes the source divide by a zero `size`, which
  produces float `nan`; this outcome is the explicit `Score.nan`, whose
  comparisons are all false exactly like `nan` comparisons in Python.
-/

/-- Unnormalised fraction: `num / den`.  All operations below keep `den`
positive whenever the operands have positive denominators, so no gcd
normalisation is needed and every computation reduces in the kernel. -/
structure Frac where
  num : ℤ
  den : ℤ
deriving DecidableEq

/-- Embed an integer. -/
def Frac.ofInt (n : ℤ) : Frac := ⟨n, 1⟩

/-- Addition of fractions (cross multiplication, no normalisation). -/
def Frac.add (x y : Frac) : Frac := ⟨x.num * y.den + y.num * x.den, x.den * y.den⟩

/-- Negation. -/
def Frac.neg (x : Frac) : Frac := ⟨-x.num, x.den⟩

/-- Subtraction. -/
def Frac.sub (x y : Frac) : Frac := x.add y.neg

/-- Multiplication. -/
def Frac.mul (x y : Frac) : Frac := ⟨x.num * y.num, x.den * y.den⟩

/-- Inverse; the sign is moved to the numerator so the denominator stays
positive.  `inv 0 = 0` (the rational-number convention; the source never
divides by zero on executed paths). -/
def Frac.inv (x : Frac) : Frac :=
  if 0 < x.num then ⟨x.den, x.num⟩
  else if x.num < 0 then ⟨-x.den, -x.num⟩
  else ⟨0, 1⟩

/-- Division. -/
def Frac.div (x y : Frac) : Frac := x.mul y.inv

/-- Absolute value. -/
def Frac.fabs (x : Frac) : Frac := ⟨|x.num|, x.den⟩

/-- Strict order (valid for positive denominators). -/
def Frac.blt (x y : Frac) : Bool := decide (x.num * y.den < y.num * x.den)

/-- Non-strict order (valid for positive denominators). -/
def Frac.ble (x y : Frac) : Bool := decide (x.num * y.den ≤ y.num * x.den)

/-- Value equality (valid for positive denominators). -/
def Frac.beq (x y : Frac) : Bool := decide (x.num * y.den = y.num * x.den)

/-- Python `int(x)`: truncation toward zero. -/
def Frac.pyint (x : Frac) : ℤ := Int.tdiv x.num x.den

/-- Interpretation in `ℚ`. -/
def Frac.toRat (x : Frac) : ℚ := (x.num : ℚ) / (x.den : ℚ)

/-- Well-formedness: positive denominator. -/
def Frac.Pos (x : Frac) : Prop := 0 < x.den

instance (x : Frac) : Decidable x.Pos := by
  unfold Frac.Pos
  infer_instance

/-- Python `range(a, b)` as a list of integers. -/
def intRange (a b : ℤ) : List ℤ := (List.range (b - a).toNat).map (fun k => a + k)

/-- Python list read `l[i]`: negative indices count from the end; a read that
is out of range even after that adjustment is an `IndexError` (`none`). -/
def pyIdx {α : Type} (l : List α) (i : ℤ) : Option α :=
  if 0 ≤ i then l.get? i.toNat
  else if 0 ≤ i + l.length then l.get? (i + l.length).toNat
  else none

/-- Python nested list read `g[i][j]`. -/
def pyIdx2 {α : Type} (g : List (List α)) (i j : ℤ) : Option α :=
  match pyIdx g i with
  | none => none
  | some row => pyIdx row j

/-- Python list write `l[i] = a` (negative indices count from the end);
`none` models an `IndexError`. -/
def pySet {α : Type} (l : List α) (i : ℤ) (a : α) : Option (List α) :=
  if 0 ≤ i then (if i < l.length then some (l.set i.toNat a) else none)
  else if 0 ≤ i + l.length then some (l.set (i + l.length).toNat a)
  else none

/-- Python nested list write `g[i][j] = a`. -/
def pySet2 {α : Type} (g : List (List α)) (i j : ℤ) (a : α) : Option (List (List α)) :=
  match pyIdx g i with
  | none => none
  | some row =>
    match pySet row j a with
    | none => none
    | some row2 => pySet g i row2

/-- Evaluate an option-valued function on every element, failing if any
evaluation fails (the shape of the loop building `tile_positions`). -/
def optMap {α β : Type} (f : α → Option β) : List α → Option (List β)
  | [] => some []
  | a :: as =>
    match f a, optMap f as with
    | some b, some bs => some (b :: bs)
    | _, _ => none

/-- Decidable sign test for `a + b * sqrt 2` with integer `a`, `b`. -/
def sqrt2NonnegZ (a b : ℤ) : Bool :=
  if 0 ≤ a then
    if 0 ≤ b then true else decide (2 * b ^ 2 ≤ a ^ 2)
  else
    if 0 ≤ b then decide (a ^ 2 ≤ 2 * b ^ 2) else false

/-- Sign test for `x + y * sqrt 2` with fractional `x`, `y` (positive
denominators): clear denominators and use the integer test. -/
def sqrt2NonnegF (x y : Frac) : Bool :=
  sqrt2NonnegZ (x.num * y.den) (y.num * x.den)

/-- Decidable test for `x + y * sqrt 2 ≤ sqrt h` (`h` a nonnegative integer):
either the left side is negative, or its square is at most `h`. -/
def leSqrtF (x y : Frac) (h : ℤ) : Bool :=
  !(sqrt2NonnegF x y) ||
    sqrt2NonnegF
      ((Frac.ofInt h).sub ((x.mul x).add ((Frac.ofInt 2).mul (y.mul y))))
      (((Frac.ofInt 2).mul (x.mul y)).neg)

/-- Decidable test for `sqrt h ≤ x + y * sqrt 2` (`h` a nonnegative integer):
the right side is nonnegative and its square is at least `h`. -/
def sqrtLeF (h : ℤ) (x y : Frac) : Bool :=
  sqrt2NonnegF x y &&
    sqrt2NonnegF
      (((x.mul x).add ((Frac.ofInt 2).mul (y.mul y))).sub (Frac.ofInt h))
      ((Frac.ofInt 2).mul (x.mul y))

/-- Outcome of `_estimateMatch`: either an actual float value (represented by
its signed square as a fraction), or the float `nan` that results when an
empty overlap region makes the source divide by a zero region size.  All
comparisons involving `nan` are false, exactly as for Python floats. -/
inductive Score
  | val (sq : Frac)
  | nan
deriving DecidableEq

/-- Comparison `score < c` for a nonnegative threshold constant `c`
(the threshold is squared because scores carry their signed square). -/
def Score.ltTh (s : Score) (c : Frac) : Bool :=
  match s with
  | .val μ => μ.blt (c.mul c)
  | .nan => false

/-- Comparison `score >= c` for a nonnegative threshold constant `c`. -/
def Score.geTh (s : Score) (c : Frac) : Bool :=
  match s with
  | .val μ => (c.mul c).ble μ
  | .nan => false

/-- Comparison `score > c` for a nonnegative threshold constant `c`. -/
def Score.gtTh (s : Score) (c : Frac) : Bool :=
  match s with
  | .val μ => (c.mul c).blt μ
  | .nan => false

/-- Comparison `a > b` between two scores. -/
def Score.sgt (a b : Score) : Bool :=
  match a, b with
  | .val x, .val y => y.blt x
  | _, _ => false

/-- Comparison `score == 0`. -/
def Score.eqZero (s : Score) : Bool :=
  match s with
  | .val μ => μ.beq (Frac.ofInt 0)
  | .nan => false

/-- Errors of the registration engine.  `shapeMismatch` and `orderingError`
are the two `ValueError`s raised by `addTile`/`_compute_registration` that the
specification names `ShapeMismatch` and `OrderingError`; `valueError` is the
`ValueError` raised by `_estimateROI` when a shift admits no overlap;
`indexError` models a Python `IndexError` from an out-of-range list access. -/
inductive RegErr
  | shapeMismatch
  | orderingError
  | valueError
  | indexError
deriving DecidableEq

instance {ε α : Type} [DecidableEq ε] [DecidableEq α] : DecidableEq (Except ε α) := by
  intro a b
  cases a <;> cases b
  case error.error e1 e2 =>
    rcases decEq e1 e2 with h | h
    · exact isFalse (by intro hc; cases hc; exact h rfl)
    · exact isTrue (by rw [h])
  case ok.ok v1 v2 =>
    rcases decEq v1 v2 with h | h
    · exact isFalse (by intro hc; cases hc; exact h rfl)
    · exact isTrue (by rw [h])
  case error.ok e v => exact isFalse (by intro hc; cases hc)
  case ok.error v e => exact isFalse (by intro hc; cases hc)

/-- Pixel data of a tile (`DataArray` of shape YX); integer-valued pixels. -/
def Image : Type := ℤ → ℤ → ℤ

/-- A tile: pixel shape `(Y, X)`, metadata `MD_POS` (x, y, in m),
metadata `MD_PIXEL_SIZE` (x, y, in m/px), and pixel data. -/
structure Tile where
  shape : ℕ × ℕ
  pos : Frac × Frac
  pixelSize : Frac × Frac
  px : Image

/-- State of `IdentityRegistrar`. -/
structure IdState where
  tile_pos : List (Frac × Frac)
  dep_tiles_pos : List (List (Frac × Frac))

/-- `IdentityRegistrar.__init__`. -/
def idInit : IdState := ⟨[], []⟩

/-- `IdentityRegistrar.addTile`.  The dependent positions are appended only
when `dependent_tiles` is truthy: both `None` and `[]` skip the append. -/
def idAddTile (st : IdState) (tile : Tile) (deps : Option (List Tile)) : IdState :=
  let st1 : IdState := { st with tile_pos := st.tile_pos ++ [tile.pos] }
  match deps with
  | some (d :: ds) =>
    { st1 with dep_tiles_pos := st1.dep_tiles_pos ++ [(d :: ds).map (fun t => t.pos)] }
  | _ => st1

/-- `IdentityRegistrar.getPositions`. -/
def idGetPositions (st : IdState) : List (Frac × Frac) × List (List (Frac × Frac)) :=
  (st.tile_pos, st.dep_tiles_pos)

/-- Run a sequence of `IdentityRegistrar.addTile` calls. -/
def runIdAdds : IdState → List (Tile × Option (List Tile)) → IdState
  | st, [] => st
  | st, c :: cs => runIdAdds (idAddTile st c.1 c.2) cs

/-- Module constant `BEST_MATCH = 0.9`. -/
def BEST_MATCH : Frac := ⟨9, 10⟩

/-- Module constant `GOOD_MATCH = 0.2`. -/
def GOOD_MATCH : Frac := ⟨1, 5⟩

/-- Module constant `EXTREME_SHIFT = 0.6`. -/
def EXTREME_SHIFT : Frac := ⟨3, 5⟩

/-- Module constant `LEFT = 1`. -/
def LEFT : ℤ := 1

/-- Module constant `RIGHT = -1`. -/
def RIGHT : ℤ := -1

/-- State of `ShiftRegistrar`.  The fields `px_size`, `size`, `osize` and
`tsize` are `None` in the source until the relevant tile has been added and
are never read before being assigned on any executed path; they are given
inert placeholder values here. -/
structure RState where
  nx : ℕ
  ny : ℕ
  coords_ver : List (List (Option (ℤ × ℤ)))
  coords_hor : List (List (Option (ℤ × ℤ)))
  shifts : List (List (Option (ℤ × ℤ)))
  tiles : List (List (Option Tile))
  last_ver : ℤ × ℤ
  last_hor : ℤ × ℤ
  ovrlp : Frac
  acqOrder : List (ℤ × ℤ)
  shift_tile_dep_tiles : List (List (Frac × Frac))
  px_size : Frac × Frac
  size : ℕ × ℕ
  osize : Frac
  tsize : ℤ
  pos_prev_x : ℤ

/-- `ShiftRegistrar.__init__`: 1x1 grid of empty slots. -/
def initState : RState :=
  { nx := 1
    ny := 1
    coords_ver := [[none]]
    coords_hor := [[none]]
    shifts := [[none]]
    tiles := [[none]]
    last_ver := (0, 0)
    last_hor := (0, 0)
    ovrlp := Frac.ofInt 0
    acqOrder := []
    shift_tile_dep_tiles := []
    px_size := (Frac.ofInt 0, Frac.ofInt 0)
    size := (0, 0)
    osize := Frac.ofInt 0
    tsize := 0
    pos_prev_x := 0 }

/-- `ShiftRegistrar._estimateROI`: raises (`ValueError`) iff the shift is at
least the tile extent on some axis in the positive direction; otherwise
returns the two clipped boxes `(l, t, r, b)`. -/
def estimateROI (size : ℕ × ℕ) (shift : ℤ × ℤ) :
    Except RegErr ((ℤ × ℤ × ℤ × ℤ) × (ℤ × ℤ × ℤ × ℤ)) :=
  if shift.1 ≥ (size.2 : ℤ) ∨ shift.2 ≥ (size.1 : ℤ) then .error .valueError
  else
    .ok ((max 0 (min (size.2 : ℤ) shift.1),
          max 0 (min (size.1 : ℤ) shift.2),
          max 0 (min (size.2 : ℤ) (shift.1 + size.2)),
          max 0 (min (size.1 : ℤ) (shift.2 + size.1))),
         (max 0 (min (size.2 : ℤ) (-shift.1)),
          max 0 (min (size.1 : ℤ) (-shift.2)),
          max 0 (min (size.2 : ℤ) ((size.2 : ℤ) - shift.1)),
          max 0 (min (size.1 : ℤ) ((size.1 : ℤ) - shift.2))))

/-- `numpy.sum` of the slice `A[t:b, l:r]`. -/
def sliceSum (A : Image) (l t r b : ℤ) : ℤ :=
  ((intRange t b).map (fun i => ((intRange l r).map (fun j => A i j)).sum)).sum

/-- Sum of a list of fractions. -/
def fracSum (l : List Frac) : Frac := l.foldr Frac.add (Frac.ofInt 0)

/-- Relative indices of an `h × w` box, row major. -/
def boxIdx (h w : ℤ) : List (ℤ × ℤ) :=
  (intRange 0 h).flatMap (fun i => (intRange 0 w).map (fun j => (i, j)))

/-- Sum over the `h × w` overlap box of
`(A[tA+i, lA+j] - avgA) * (B[tB+i, lB+j] - avgB)`: the numerator sum of the
covariance (and, with `A = B`, of the variance).  The source sums over the
two-dimensional numpy array; summing over the row-major index list is the
same sum. -/
def distProdSum (A B : Image) (tA lA tB lB h w : ℤ) (avgA avgB : Frac) : Frac :=
  fracSum ((boxIdx h w).map (fun p =>
    ((Frac.ofInt (A (tA + p.1) (lA + p.2))).sub avgA).mul
      ((Frac.ofInt (B (tB + p.1) (lB + p.2))).sub avgB)))

/-- Number of pixels of a ROI box `(l, t, r, b)`: `(b - t) * (r - l)`. -/
def roiSizeN (r : ℤ × ℤ × ℤ × ℤ) : ℤ := (r.2.2.2 - r.2.1) * (r.2.2.1 - r.1)

/-- Mean of the cropped region (`numpy.sum(slice) / slice.size`). -/
def roiAvg (A : Image) (r : ℤ × ℤ × ℤ × ℤ) : Frac :=
  Frac.div (Frac.ofInt (sliceSum A r.1 r.2.1 r.2.2.1 r.2.2.2)) (Frac.ofInt (roiSizeN r))

/-- Covariance of the two mean-subtracted regions
(`numpy.sum(dist[0] * dist[1]) / imageA_sh.size`). -/
def roiCovar (A B : Image) (r1 r2 : ℤ × ℤ × ℤ × ℤ) : Frac :=
  Frac.div
    (distProdSum A B r1.2.1 r1.1 r2.2.1 r2.1 (r1.2.2.2 - r1.2.1) (r1.2.2.1 - r1.1)
      (roiAvg A r1) (roiAvg B r2))
    (Frac.ofInt (roiSizeN r1))

/-- Variance of a mean-subtracted region
(`numpy.sum(numpy.power(dist, 2)) / image_sh.size`). -/
def roiVar (A : Image) (r : ℤ × ℤ × ℤ × ℤ) : Frac :=
  Frac.div
    (distProdSum A A r.2.1 r.1 r.2.1 r.1 (r.2.2.2 - r.2.1) (r.2.2.1 - r.1)
      (roiAvg A r) (roiAvg A r))
    (Frac.ofInt (roiSizeN r))

/-- The plausible-range guard of `_estimateMatch`:
`sqrt 2 * (tsize - osize) - osize * EXTREME_SHIFT <= hypot shift` and
`hypot shift <= sqrt 2 * (tsize - osize) + osize * EXTREME_SHIFT`,
decided exactly in `ℚ[√2]` (see `leSqrtF_iff` and `sqrtLeF_iff`). -/
def inPlausibleRange (osize : Frac) (tsize : ℤ) (shift : ℤ × ℤ) : Bool :=
  let d : Frac := (Frac.ofInt tsize).sub osize
  let e : Frac := osize.mul EXTREME_SHIFT
  let h : ℤ := shift.1 ^ 2 + shift.2 ^ 2
  leSqrtF e.neg d h && sqrtLeF h e d

/-- `ShiftRegistrar._estimateMatch`.  Deviations from a literal transcription,
each justified by a bridge lemma: the plausible-range test is decided in
`ℚ[√2]`; the returned score is represented by its signed square
`covar * |covar| / (varA * varB)` (`= r * |r|` for
`r = covar / (stDevA * stDevB)`); the `stDev == 0` test is equivalent to the
corresponding variance being `0`; a zero-size overlap region (possible for
large negative in-range shifts) makes the source produce float `nan`
(0/0 divisions), here `Score.nan`. -/
def estimateMatch (st : RState) (A B : Image) (shift : ℤ × ℤ) : Except RegErr Score :=
  if ! inPlausibleRange st.osize st.tsize shift then .ok (.val (Frac.ofInt 0))
  else
    match estimateROI st.size shift with
    | .error e => .error e
    | .ok (r1, r2) =>
      if roiSizeN r1 = 0 ∨ roiSizeN r2 = 0 then .ok .nan
      else
        let covar := roiCovar A B r1 r2
        let varA := roiVar A r1
        let varB := roiVar B r2
        if varA.beq (Frac.ofInt 0) || varB.beq (Frac.ofInt 0) then .ok (.val (Frac.ofInt 0))
        else .ok (.val ((covar.mul covar.fabs).div (varA.mul varB)))

/-- The external `MeasureShift(b, a)` correlation kernel from
`odemis.acq.drift` (outside the registrar, treated by the specification as a
black-box collaborator): an oracle receiving each image with its crop box. -/
def Oracle : Type := Image → (ℤ × ℤ × ℤ × ℤ) → Image → (ℤ × ℤ × ℤ × ℤ) → ℤ × ℤ

/-- `ShiftRegistrar._get_shift`: crop both tiles to the ROI of `shift` and
ask the measurement kernel; `_estimateROI` may raise. -/
def getShift (O : Oracle) (st : RState) (prevTile tile : Image) (shift : ℤ × ℤ) :
    Except RegErr (ℤ × ℤ) :=
  match estimateROI st.size shift with
  | .error e => .error e
  | .ok (roi1, roi2) => .ok (O tile roi2 prevTile roi1)

/-- `ShiftRegistrar._mean_shift`: mean of the non-`None` entries of the given
coordinate array along row `row` (columns `1..col-1`) and column `col`
(rows `1..row-1`); `none` models the `ValueError` raised when no entry
exists.  Out-of-range reads cannot occur on executed paths and are dropped. -/
def meanShift (row col : ℤ) (coords : List (List (Option (ℤ × ℤ)))) : Option (ℤ × ℤ) :=
  let val :=
    ((intRange 1 col).filterMap (fun i =>
      match pyIdx2 coords row i with
      | some (some v) => some v
      | _ => none)) ++
    ((intRange 1 row).filterMap (fun i =>
      match pyIdx2 coords i col with
      | some (some v) => some v
      | _ => none))
  match val with
  | [] => none
  | _ :: _ =>
    some (Frac.pyint (Frac.div (Frac.ofInt ((val.map Prod.fst).sum)) (Frac.ofInt val.length)),
          Frac.pyint (Frac.div (Frac.ofInt ((val.map Prod.snd).sum)) (Frac.ofInt val.length)))

/-- The direction-dependent shift measurement of `_pos_to_left_right`
(lines 372-381): against the left neighbour directly, against the right
neighbour with both components negated. -/
def getShiftDir (O : Oracle) (st : RState) (prevTile tile : Image) (xdir : ℤ) (s : ℤ × ℤ) :
    Except RegErr (ℤ × ℤ) :=
  if xdir = LEFT then getShift O st prevTile tile s
  else (getShift O st tile prevTile s).map (fun p => (-p.1, -p.2))

/-- Final part of `_pos_to_left_right` (after the accepted shift `(x, y)` and
its match are fixed): store `last_hor`, record the shift in `coords_hor` when
the match reaches `BEST_MATCH`, and compute the neighbour-relative position. -/
def posToLeftRightFinish (st : RState) (row col : ℤ) (xdir : ℤ) (prev_pos : ℤ × ℤ)
    (x y : ℤ) (m : Score) : Except RegErr (RState × Option (ℤ × ℤ) × Score) :=
  let st1 : RState := { st with last_hor := (x, y) }
  match (if m.geTh BEST_MATCH then
           (pySet2 st1.coords_hor row col (some (x, y))).map
             (fun c => { st1 with coords_hor := c })
         else some st1) with
  | none => .error .indexError
  | some st2 =>
    let spacing : Frac := (Frac.ofInt (st.size.2 : ℤ)).mul ((Frac.ofInt 1).sub st.ovrlp)
    let pos : ℤ × ℤ :=
      if xdir = LEFT then
        (Frac.pyint (((Frac.ofInt prev_pos.1).add spacing).sub (Frac.ofInt x)),
         Frac.pyint ((Frac.ofInt prev_pos.2).sub (Frac.ofInt y)))
      else
        (Frac.pyint (((Frac.ofInt prev_pos.1).sub spacing).sub (Frac.ofInt x)),
         Frac.pyint ((Frac.ofInt prev_pos.2).sub (Frac.ofInt y)))
    .ok (st2, some pos, m)

/-- `ShiftRegistrar._pos_to_left_right`. -/
def posToLeftRight (O : Oracle) (st : RState) (row col : ℤ) (xdir : ℤ) :
    Except RegErr (RState × Option (ℤ × ℤ) × Score) :=
  match pyIdx2 st.tiles row col with
  | none => .error .indexError
  | some none => .error .indexError
  | some (some tile) =>
    let exp_shift : ℤ × ℤ := (st.tsize, 0)
    if (xdir = LEFT ∧ 0 < col) ∨ (xdir = RIGHT ∧ col < (st.nx : ℤ)) then
      let ncol := if xdir = LEFT then col - 1 else col + 1
      match pyIdx2 st.shifts row ncol, pyIdx2 st.tiles row ncol with
      | some (some prev_pos), some (some prev_tile) =>
        match getShiftDir O st prev_tile.px tile.px xdir exp_shift with
        | .error e => .error e
        | .ok xy0 =>
          match estimateMatch st prev_tile.px tile.px
              (exp_shift.1 - xy0.1, exp_shift.2 - xy0.2) with
          | .error e => .error e
          | .ok match0 =>
            if match0.ltTh BEST_MATCH && (decide (1 < row) || decide (1 < col)) then
              let mean := (meanShift row col st.coords_hor).getD st.last_hor
              match estimateMatch st prev_tile.px tile.px
                  (exp_shift.1 - mean.1, exp_shift.2 - mean.2) with
              | .error e => .error e
              | .ok match_c =>
                let xym : (ℤ × ℤ) × Score :=
                  if match_c.sgt match0 then (mean, match_c) else (xy0, match0)
                if mean ≠ (0, 0) then
                  match getShift O st prev_tile.px tile.px
                      (exp_shift.1 - mean.1, exp_shift.2 - mean.2) with
                  | .error e => .error e
                  | .ok drift =>
                    let mean2 := (mean.1 + drift.1, mean.2 + drift.2)
                    match estimateMatch st prev_tile.px tile.px
                        (exp_shift.1 - mean2.1, exp_shift.2 - mean2.2) with
                    | .error e => .error e
                    | .ok match_c2 =>
                      let xy2 := if match_c2.sgt xym.2 then (mean2, match_c2) else xym
                      posToLeftRightFinish st row col xdir prev_pos xy2.1.1 xy2.1.2 xy2.2
                else
                  posToLeftRightFinish st row col xdir prev_pos xym.1.1 xym.1.2 xym.2
            else
              posToLeftRightFinish st row col xdir prev_pos xy0.1 xy0.2 match0
      | _, _ => .error .indexError
    else .ok (st, none, .val (Frac.ofInt 0))

/-- Final part of `_pos_to_top`, analogous to `posToLeftRightFinish`. -/
def posToTopFinish (st : RState) (row col : ℤ) (prev_pos : ℤ × ℤ)
    (x y : ℤ) (m : Score) : Except RegErr (RState × Option (ℤ × ℤ) × Score) :=
  let st1 : RState := { st with last_ver := (x, y) }
  match (if m.geTh BEST_MATCH then
           (pySet2 st1.coords_ver row col (some (x, y))).map
             (fun c => { st1 with coords_ver := c })
         else some st1) with
  | none => .error .indexError
  | some st2 =>
    let spacing : Frac := (Frac.ofInt (st.size.1 : ℤ)).mul ((Frac.ofInt 1).sub st.ovrlp)
    let pos : ℤ × ℤ :=
      (Frac.pyint ((Frac.ofInt prev_pos.1).sub (Frac.ofInt x)),
       Frac.pyint (((Frac.ofInt prev_pos.2).add spacing).sub (Frac.ofInt y)))
    .ok (st2, some pos, m)

/-- `ShiftRegistrar._pos_to_top`. -/
def posToTop (O : Oracle) (st : RState) (row col : ℤ) :
    Except RegErr (RState × Option (ℤ × ℤ) × Score) :=
  match pyIdx2 st.tiles row col with
  | none => .error .indexError
  | some none => .error .indexError
  | some (some tile) =>
    let exp_shift : ℤ × ℤ := (0, st.tsize)
    if 0 < row then
      match pyIdx2 st.shifts (row - 1) col, pyIdx2 st.tiles (row - 1) col with
      | some (some prev_pos), some (some prev_tile) =>
        match getShift O st prev_tile.px tile.px exp_shift with
        | .error e => .error e
        | .ok xy0 =>
          match estimateMatch st prev_tile.px tile.px
              (exp_shift.1 - xy0.1, exp_shift.2 - xy0.2) with
          | .error e => .error e
          | .ok match0 =>
            if match0.ltTh BEST_MATCH && (decide (1 < row) || decide (1 < col)) then
              let mean := (meanShift row col st.coords_ver).getD st.last_ver
              match estimateMatch st prev_tile.px tile.px
                  (exp_shift.1 - mean.1, exp_shift.2 - mean.2) with
              | .error e => .error e
              | .ok match_c =>
                let xym : (ℤ × ℤ) × Score :=
                  if match_c.sgt match0 then (mean, match_c) else (xy0, match0)
                if mean ≠ (0, 0) then
                  match getShift O st prev_tile.px tile.px
                      (exp_shift.1 - mean.1, exp_shift.2 - mean.2) with
                  | .error e => .error e
                  | .ok drift =>
                    let mean2 := (mean.1 + drift.1, mean.2 + drift.2)
                    match estimateMatch st prev_tile.px tile.px
                        (exp_shift.1 - mean2.1, exp_shift.2 - mean2.2) with
                    | .error e => .error e
                    | .ok match_c2 =>
                      let xy2 := if match_c2.sgt xym.2 then (mean2, match_c2) else xym
                      posToTopFinish st row col prev_pos xy2.1.1 xy2.1.2 xy2.2
                else
                  posToTopFinish st row col prev_pos xym.1.1 xym.1.2 xym.2
            else
              posToTopFinish st row col prev_pos xy0.1 xy0.2 match0
      | _, _ => .error .indexError
    else .ok (st, none, .val (Frac.ofInt 0))

/-- The reconciliation step of `_compute_registration` (lines 540-555 of the
source): combine the horizontal estimate `(pos, m)` and the vertical estimate
`(pos2, m2)` into the stored position, falling back to the ideal grid
position `(ox, oy)`. -/
def reconcile (pos pos2 : Option (ℤ × ℤ)) (m m2 : Score) (ox oy : ℤ) : ℤ × ℤ :=
  match pos, pos2 with
  | none, none => (ox, oy)
  | none, some q2 => q2
  | some q, none => q
  | some q, some q2 =>
    if m.gtTh GOOD_MATCH && m2.gtTh GOOD_MATCH then
      (Frac.pyint (Frac.div (Frac.ofInt (q.1 + q2.1)) (Frac.ofInt 2)),
       Frac.pyint (Frac.div (Frac.ofInt (q.2 + q2.2)) (Frac.ofInt 2)))
    else if m2.sgt m then q2
    else if m2.eqZero && m.eqZero then (ox, oy)
    else q

/-- Lines 524-533 of `_compute_registration`: the horizontal estimate, by
comparing `pos_prev_x` with `col` and checking the neighbour slot. -/
def horEstimate (O : Oracle) (st : RState) (row col : ℤ) :
    Except RegErr (RState × Option (ℤ × ℤ) × Score) :=
  if st.pos_prev_x < col then
    if col = 0 then .ok (st, none, .val (Frac.ofInt 0))
    else
      match pyIdx2 st.tiles row (col - 1) with
      | none => .error .indexError
      | some none => .ok (st, none, .val (Frac.ofInt 0))
      | some (some _) => posToLeftRight O st row col LEFT
  else if col < st.pos_prev_x then
    if col = (st.nx : ℤ) then .ok (st, none, .val (Frac.ofInt 0))
    else
      match pyIdx2 st.tiles row (col + 1) with
      | none => .error .indexError
      | some none => .ok (st, none, .val (Frac.ofInt 0))
      | some (some _) => posToLeftRight O st row col RIGHT
  else .ok (st, none, .val (Frac.ofInt 0))

/-- Lines 535-538 of `_compute_registration`: the vertical estimate. -/
def verEstimate (O : Oracle) (st : RState) (row col : ℤ) :
    Except RegErr (RState × Option (ℤ × ℤ) × Score) :=
  if row = 0 then .ok (st, none, .val (Frac.ofInt 0))
  else
    match pyIdx2 st.tiles (row - 1) col with
    | none => .error .indexError
    | some none => .ok (st, none, .val (Frac.ofInt 0))
    | some (some _) => posToTop O st row col

/-- Lines 519-538 of `_compute_registration`: compute the horizontal estimate
and then the vertical estimate, threading the state. -/
def estimatesPair (O : Oracle) (st : RState) (row col : ℤ) :
    Except RegErr (RState × (Option (ℤ × ℤ) × Score) × (Option (ℤ × ℤ) × Score)) :=
  match horEstimate O st row col with
  | .error e => .error e
  | .ok (st1, p, m) =>
    match verEstimate O st1 row col with
    | .error e => .error e
    | .ok (st2, p2, m2) => .ok (st2, (p, m), (p2, m2))

/-- The guard of `_compute_registration` (line 508), with Python's
short-circuit evaluation: when `row >= 1` and the slot above is empty and
`col >= 1` and the slot to the left is empty, the ordering contract is
violated; an out-of-range access while evaluating it is an `IndexError`. -/
def orderingGuard (tiles : List (List (Option Tile))) (row col : ℤ) : Option RegErr :=
  if 1 ≤ row then
    match pyIdx2 tiles (row - 1) col with
    | none => some RegErr.indexError
    | some (some _) => none
    | some none =>
      if 1 ≤ col then
        match pyIdx2 tiles row (col - 1) with
        | none => some RegErr.indexError
        | some (some _) => none
        | some none => some RegErr.orderingError
      else none
  else none

/-- `ShiftRegistrar._compute_registration`.  Returns the (possibly partially
mutated) state together with `some e` when the Python code raises `e`. -/
def computeRegistration (O : Oracle) (st : RState) (tile : Tile) (row col : ℤ) :
    RState × Option RegErr :=
  match orderingGuard st.tiles row col with
  | some e => (st, some e)
  | none =>
    match pySet2 st.tiles row col (some tile) with
    | none => (st, some RegErr.indexError)
    | some tiles1 =>
      let st1 : RState := { st with tiles := tiles1 }
      let ox : ℤ := Frac.pyint ((Frac.ofInt col).mul
        ((Frac.ofInt (st.size.2 : ℤ)).mul ((Frac.ofInt 1).sub st.ovrlp)))
      let oy : ℤ := Frac.pyint ((Frac.ofInt row).mul
        ((Frac.ofInt (st.size.1 : ℤ)).mul ((Frac.ofInt 1).sub st.ovrlp)))
      match estimatesPair O st1 row col with
      | .error e => (st1, some e)
      | .ok (st2, pm, pm2) =>
        let pos := reconcile pm.1 pm2.1 pm.2 pm2.2 ox oy
        match pySet2 st2.shifts row col (some pos) with
        | none => (st2, some RegErr.indexError)
        | some shifts1 =>
          ({ st2 with shifts := shifts1, acqOrder := st2.acqOrder ++ [(row, col)] }, none)

/-- `ShiftRegistrar._find_closest_tile`.  The source tracks the minimum of
`math.hypot` distances under strict `<`; `hypot` is strictly monotone in the
squared distance (`Real.sqrt_lt_sqrt`), so comparing squared distances keeps
every comparison, hence the selected tile, identical.  Iteration order (row
major, so the first strict minimum wins) is preserved. -/
def findClosestTile (st : RState) (pos : Frac × Frac) : Option ((ℕ × ℕ) × (Frac × Frac)) :=
  let cells : List (ℕ × ℕ) :=
    (List.range st.tiles.length).flatMap (fun i =>
      (List.range (st.tiles.headD []).length).map (fun j => (i, j)))
  let best := cells.foldl (fun acc ij =>
    match (st.tiles.getD ij.1 []).getD ij.2 none with
    | none => acc
    | some t =>
      let dx := pos.1.sub t.pos.1
      let dy := pos.2.sub t.pos.2
      let d := (dx.mul dx).add (dy.mul dy)
      match acc with
      | none => some (ij, t.pos, d)
      | some (_, _, dmin) => if d.blt dmin then some (ij, t.pos, d) else acc) none
  best.map (fun b => (b.1, b.2.1))

/-- `ShiftRegistrar._updateGrid("x")`: one more column in every row. -/
def updateGridX (st : RState) : RState :=
  { st with
    nx := st.nx + 1
    tiles := st.tiles.map (fun r => r ++ [none])
    coords_ver := st.coords_ver.map (fun r => r ++ [none])
    coords_hor := st.coords_hor.map (fun r => r ++ [none])
    shifts := st.shifts.map (fun r => r ++ [none]) }

/-- `ShiftRegistrar._updateGrid("y")`: one more all-empty row (the source
does not increment `ny`). -/
def updateGridY (st : RState) : RState :=
  { st with
    tiles := st.tiles ++ [List.replicate st.nx none]
    coords_ver := st.coords_ver ++ [List.replicate st.nx none]
    coords_hor := st.coords_hor ++ [List.replicate st.nx none]
    shifts := st.shifts ++ [List.replicate st.nx none] }

/-- The slot-finding part of `ShiftRegistrar.addTile` for a non-first tile
(lines 148-194): find the nearest registered tile, derive the grid slot from
the dominant displacement axis, grow the grid if needed, store `pos_prev_x`
and recompute the overlap.  Returns the updated state and `(posY, posX)`. -/
def placeTile (st : RState) (tile : Tile) : Option (RState × ℤ × ℤ) :=
  match findClosestTile st tile.pos with
  | none => none
  | some (pp, md_prev) =>
    let ver_diff := tile.pos.2.sub md_prev.2
    let hor_diff := tile.pos.1.sub md_prev.1
    let vdom : Bool := hor_diff.fabs.blt ver_diff.fabs
    let stc :=
      if vdom then
        if ver_diff.blt (Frac.ofInt 0) then
          let r : ℤ := (pp.1 : ℤ) + 1
          ((if (st.shifts.length : ℤ) ≤ r then updateGridY st else st), r, (pp.2 : ℤ))
        else
          (st, (pp.1 : ℤ) - 1, (pp.2 : ℤ))
      else
        if (Frac.ofInt 0).blt hor_diff then
          let c : ℤ := (pp.2 : ℤ) + 1
          ((if ((st.shifts.headD []).length : ℤ) ≤ c then updateGridX st else st),
            (pp.1 : ℤ), c)
        else
          (st, (pp.1 : ℤ), (pp.2 : ℤ) - 1)
    let st2 : RState := { stc.1 with pos_prev_x := (pp.2 : ℤ) }
    let st3 : RState :=
      if vdom then
        let size_meter := (Frac.ofInt (st.size.1 : ℤ)).mul st.px_size.2
        let diff := (tile.pos.2.sub md_prev.2).fabs
        let ov := ((size_meter.sub diff).fabs).div size_meter
        { st2 with
          ovrlp := ov
          osize := (Frac.ofInt (st.size.1 : ℤ)).mul ov
          tsize := Frac.pyint ((Frac.ofInt (st.size.1 : ℤ)).sub
            ((Frac.ofInt (st.size.1 : ℤ)).mul ov)) }
      else
        let size_meter := (Frac.ofInt (st.size.2 : ℤ)).mul st.px_size.1
        let diff := (tile.pos.1.sub md_prev.1).fabs
        let ov := ((size_meter.sub diff).fabs).div size_meter
        { st2 with
          ovrlp := ov
          osize := (Frac.ofInt (st.size.2 : ℤ)).mul ov
          tsize := Frac.pyint ((Frac.ofInt (st.size.2 : ℤ)).sub
            ((Frac.ofInt (st.size.2 : ℤ)).mul ov)) }
    some (st3, stc.2.1, stc.2.2)

/-- Fixed physical offsets `numpy.subtract(dt.MD_POS, tile.MD_POS)` of the
dependent tiles. -/
def depOffsets (tile : Tile) (dl : List Tile) : List (Frac × Frac) :=
  dl.map (fun dt => (dt.pos.1.sub tile.pos.1, dt.pos.2.sub tile.pos.2))

/-- Lines 196-198 of `addTile`: append each dependent tile's fixed physical
offset to the last entry of `shift_tile_dep_tiles`.  When the list of
dependents is nonempty that last entry exists: it is the `[]` appended at the
start of the same `addTile` call. -/
def appendDepOffsets (st : RState) (tile : Tile) (dl : List Tile) : RState :=
  match dl with
  | [] => st
  | _ :: _ =>
    { st with shift_tile_dep_tiles :=
        st.shift_tile_dep_tiles.dropLast ++
          [(st.shift_tile_dep_tiles.getLast?.getD []) ++ depOffsets tile dl] }

/-- First lines of `addTile`: when `dependent_tiles` is not `None` (even when
it is the empty list) an empty offset list is appended. -/
def depExtend (st : RState) (deps : Option (List Tile)) : RState :=
  match deps with
  | none => st
  | some _ => { st with shift_tile_dep_tiles := st.shift_tile_dep_tiles ++ [[]] }

/-- `ShiftRegistrar.addTile`.  Returns the (possibly partially mutated) state
together with `some e` when the Python code raises `e`.  The source stores
`posX`/`posY` on `self` only to pass them to the immediately following
`_compute_registration` call; they are passed directly here. -/
def addTile (O : Oracle) (st : RState) (tile : Tile) (deps : Option (List Tile)) :
    RState × Option RegErr :=
  let st0 := depExtend st deps
  let depList := deps.getD []
  match pyIdx2 st0.tiles 0 0 with
  | none => (st0, some RegErr.indexError)
  | some none =>
    let st1 : RState :=
      { st0 with size := tile.shape, px_size := tile.pixelSize, pos_prev_x := 0 }
    let st2 := appendDepOffsets st1 tile depList
    computeRegistration O st2 tile 0 0
  | some (some t0) =>
    if tile.shape ≠ t0.shape then (st0, some RegErr.shapeMismatch)
    else
      match placeTile st0 tile with
      | none => (st0, some RegErr.indexError)
      | some (st1, r, c) =>
        let st2 := appendDepOffsets st1 tile depList
        computeRegistration O st2 tile r c

/-- `ShiftRegistrar.getPositions`: convert each stored per-slot shift back to
a physical position (origin at the first tile), in acquisition order, then
derive the dependent positions by `zip`-ing with the stored offsets.
`none` models the crashes the source would have on a state with no first
tile or a missing stored shift. -/
def getPositions (st : RState) : Option (List (Frac × Frac) × List (List (Frac × Frac))) :=
  match pyIdx2 st.tiles 0 0 with
  | some (some t0) =>
    let fp : Frac × Frac := (t0.pos.1.div st.px_size.1, t0.pos.2.div st.px_size.2)
    match optMap (fun rc : ℤ × ℤ =>
        match pyIdx2 st.shifts rc.1 rc.2 with
        | some (some s) =>
          some ((((Frac.ofInt s.1).add fp.1).mul st.px_size.1),
                ((fp.2.sub (Frac.ofInt s.2)).mul st.px_size.2))
        | _ => none) st.acqOrder with
    | none => none
    | some tps =>
      some (tps, (tps.zip st.shift_tile_dep_tiles).map
        (fun p => p.2.map (fun sdt => (p.1.1.add sdt.1, p.1.2.add sdt.2))))
  | _ => none

/-- Run a sequence of `ShiftRegistrar.addTile` calls from the given
accumulator, stopping at the first raised error. -/
def runAdds (O : Oracle) :
    RState × Option RegErr → List (Tile × Option (List Tile)) → RState × Option RegErr
  | acc, [] => acc
  | acc, c :: cs =>
    match acc.2 with
    | some _ => acc
    | none => runAdds O (addTile O acc.1 c.1 c.2) cs

/-- The returned value of a match computation, when it returns one. -/
def matchValue : Except RegErr Score → Option Frac
  | .ok (.val μ) => some μ
  | _ => none

/-- The plausible-shift interval of `_estimateMatch`, stated over the real
numbers exactly as in the source:
`sqrt 2 * (tsize - osize) - osize * 0.6 <= hypot shift` and
`hypot shift <= sqrt 2 * (tsize - osize) + osize * 0.6`. -/
def plausibleRangeR (osize : Frac) (tsize : ℤ) (shift : ℤ × ℤ) : Prop :=
  Real.sqrt 2 * ((tsize : ℝ) - (osize.toRat : ℝ)) - (osize.toRat : ℝ) * (3 / 5) ≤
      Real.sqrt ((shift.1 : ℝ) ^ 2 + (shift.2 : ℝ) ^ 2) ∧
    Real.sqrt ((shift.1 : ℝ) ^ 2 + (shift.2 : ℝ) ^ 2) ≤
      Real.sqrt 2 * ((tsize : ℝ) - (osize.toRat : ℝ)) + (osize.toRat : ℝ) * (3 / 5)

/-- Uniform flat (constant-zero) pixel data for the concrete fixtures. -/
def flatImage : Image := fun _ _ => 0

/-- A trivial measured-shift kernel for the concrete fixtures. -/
def zeroOracle : Oracle := fun _ _ _ _ => (0, 0)

/-- A 4x4 tile with pixel size 1 m/px at integer position `(x, y)` m. -/
def tileAt (x y : ℤ) : Tile :=
  ⟨(4, 4), (Frac.ofInt x, Frac.ofInt y), (Frac.ofInt 1, Frac.ofInt 1), flatImage⟩

/-- A 4x4 tile with pixel size 1 m/px at fractional position `(x, y)` m. -/
def tileAtF (x y : Frac) : Tile :=
  ⟨(4, 4), (x, y), (Frac.ofInt 1, Frac.ofInt 1), flatImage⟩

/-- Fixture for C10: first tile at the origin, second below it, third above
the first (up-insertion, slot row `-1`). -/
def runC10 : RState × Option RegErr :=
  runAdds zeroOracle (initState, none)
    [(tileAt 0 0, none), (tileAt 0 (-3), none), (tileAt 0 3, none)]

/-- Fixture for C1: an L-shaped mosaic `(0,0), (1,0), (1,1)`. -/
def traceC1 : List (Tile × Option (List Tile)) :=
  [(tileAt 0 0, none), (tileAt 0 (-3), none), (tileAt 3 (-3), none)]

def stC1 : RState := (runAdds zeroOracle (initState, none) traceC1).1

/-- Fixture for C1: a fourth tile whose nearest registered tile is at slot
`(1,1)` and whose dominant displacement points up, so it lands at `(0,1)`. -/
def tileC1 : Tile := tileAt 3 (-1)

def runC1 : RState × Option RegErr :=
  runAdds zeroOracle (initState, none) (traceC1 ++ [(tileC1, none)])

/-- The state `_compute_registration` sees right after storing `tileC1` at
its slot, with the computed slot. -/
def stC1stored : RState × ℤ × ℤ :=
  match placeTile stC1 tileC1 with
  | some (st1, r, c) =>
    ({ st1 with tiles := (pySet2 st1.tiles r c (some tileC1)).getD st1.tiles }, r, c)
  | none => (stC1, 0, 0)

/-- Fixture for C2: two tiles 3.8 m apart horizontally, so `ovrlp = 1/20`,
`osize = 1/5` and `tsize = 3`. -/
def stC2 : RState :=
  (runAdds zeroOracle (initState, none)
    [(tileAt 0 0, none), (tileAtF ⟨19, 5⟩ (Frac.ofInt 0), none)]).1

/-- Fixture for C4: two tiles 3 m apart vertically, so `ovrlp = 1/4`,
`osize = 1` and `tsize = 3`. -/
def stC4 : RState :=
  (runAdds zeroOracle (initState, none)
    [(tileAt 0 0, none), (tileAt 0 (-3), none)]).1

/-- Fixture for C4: rows alternate 0,1,0,1. -/
def imgA4 : Image := fun i _ => if i % 2 = 0 then 0 else 1

/-- Fixture for C4: rows alternate 1,0,1,0 (anti-correlated with `imgA4`). -/
def imgB4 : Image := fun i _ => if i % 2 = 0 then 1 else 0

/-- Fixture for C5: a full first column `(0,0), (1,0), (2,0)` and then the
bottom row `(2,1), (2,2)`. -/
def stC5 : RState :=
  (runAdds zeroOracle (initState, none)
    [(tileAt 0 0, none), (tileAt 0 (-3), none), (tileAt 0 (-6), none),
     (tileAt 3 (-6), none), (tileAt 6 (-6), none)]).1

/-- Fixture for C5: a tile whose nearest registered tile is at `(2,2)` and
whose dominant displacement points up, so it lands at slot `(1,2)`, whose top
`(0,2)` and left `(1,1)` neighbours are both still empty. -/
def tileC5 : Tile := tileAtF ⟨61, 10⟩ (Frac.ofInt (-3))

/-- Fixture for C7/C8: first tile without dependents (`dependent_tiles=None`),
second tile at `(3, 0)` with one dependent at `(4, 1)` (offset `(1, 1)`). -/
def runC7 : RState × Option RegErr :=
  runAdds zeroOracle (initState, none)
    [(tileAt 0 0, none), (tileAt 3 0, some [tileAt 4 1])]

/-- Fixture for C6: a 5x5 tile, mismatching the 4x4 tiles of the other
fixtures. -/
def tileBig : Tile :=
  ⟨(5, 5), (Frac.ofInt 0, Frac.ofInt 0), (Frac.ofInt 1, Frac.ofInt 1), flatImage⟩

/-! ### Bookkeeping of `shift_tile_dep_tiles` and the acquisition order
across a successful `addTile` -/

/-- The per-call contribution to `shift_tile_dep_tiles`: nothing for
`dependent_tiles=None`, one offset list otherwise. -/
def callOffsets (c : Tile × Option (List Tile)) : List (List (Frac × Frac)) :=
  match c.2 with
  | none => []
  | some dl => [depOffsets c.1 dl]

/-- The per-call contribution to `IdentityRegistrar.dep_tiles_pos`: one entry
when the dependent list is truthy (nonempty), nothing otherwise. -/
def idCallDeps (c : Tile × Option (List Tile)) : List (List (Frac × Frac)) :=
  match c.2 with
  | some (d :: ds) => [(d :: ds).map (fun t => t.pos)]
  | _ => []

theorem Frac.Pos.ofInt (n : ℤ) : (Frac.ofInt n).Pos := by
  simp [Frac.ofInt, Frac.Pos]

theorem Frac.Pos.add {x y : Frac} (hx : x.Pos) (hy : y.Pos) : (x.add y).Pos :=
  mul_pos hx hy

theorem Frac.Pos.neg {x : Frac} (hx : x.Pos) : x.neg.Pos := hx

theorem Frac.Pos.sub {x y : Frac} (hx : x.Pos) (hy : y.Pos) : (x.sub y).Pos :=
  Frac.Pos.add hx hy

theorem Frac.Pos.mul {x y : Frac} (hx : x.Pos) (hy : y.Pos) : (x.mul y).Pos :=
  mul_pos hx hy

theorem Frac.Pos.inv (x : Frac) : x.inv.Pos := by
  unfold Frac.inv Frac.Pos
  split
  · assumption
  · split
    · rename_i h1 h2
      show 0 < -x.num
      omega
    · norm_num

theorem Frac.Pos.div {x : Frac} (hx : x.Pos) (y : Frac) : (x.div y).Pos :=
  Frac.Pos.mul hx (Frac.Pos.inv y)

theorem Frac.Pos.fabs {x : Frac} (hx : x.Pos) : x.fabs.Pos := hx

theorem Frac.toRat_ofInt (n : ℤ) : (Frac.ofInt n).toRat = (n : ℚ) := by
  simp [Frac.ofInt, Frac.toRat]

theorem Frac.toRat_add {x y : Frac} (hx : x.Pos) (hy : y.Pos) :
    (x.add y).toRat = x.toRat + y.toRat := by
  unfold Frac.add Frac.toRat
  have hx' : (x.den : ℚ) ≠ 0 := by exact_mod_cast hx.ne'
  have hy' : (y.den : ℚ) ≠ 0 := by exact_mod_cast hy.ne'
  field_simp

theorem Frac.toRat_neg (x : Frac) : x.neg.toRat = -x.toRat := by
  unfold Frac.neg Frac.toRat
  push_cast
  ring

theorem Frac.toRat_sub {x y : Frac} (hx : x.Pos) (hy : y.Pos) :
    (x.sub y).toRat = x.toRat - y.toRat := by
  unfold Frac.sub
  rw [Frac.toRat_add hx (Frac.Pos.neg hy), Frac.toRat_neg]
  ring

theorem Frac.toRat_mul (x y : Frac) : (x.mul y).toRat = x.toRat * y.toRat := by
  unfold Frac.mul Frac.toRat
  push_cast
  field_simp

theorem Frac.toRat_inv {x : Frac} (hx : x.Pos) : x.inv.toRat = (x.toRat)⁻¹ := by
  unfold Frac.inv Frac.toRat
  have hx' : (x.den : ℚ) ≠ 0 := by exact_mod_cast hx.ne'
  split
  · rename_i h
    have hn : (x.num : ℚ) ≠ 0 := by exact_mod_cast h.ne'
    field_simp
  · split
    · rename_i h h2
      have hn : (x.num : ℚ) ≠ 0 := by exact_mod_cast h2.ne
      push_cast
      field_simp
    · rename_i h h2
      have hn : x.num = 0 := by omega
      simp [hn]

theorem Frac.toRat_div {x : Frac} (y : Frac) (hy : y.Pos) :
    (x.div y).toRat = x.toRat / y.toRat := by
  unfold Frac.div
  rw [Frac.toRat_mul, Frac.toRat_inv hy, div_eq_mul_inv]

theorem Frac.toRat_fabs {x : Frac} (hx : x.Pos) : x.fabs.toRat = |x.toRat| := by
  unfold Frac.fabs Frac.toRat
  rw [abs_div]
  congr 1
  · push_cast
    simp
  · exact (abs_of_pos (by exact_mod_cast hx)).symm

theorem Frac.blt_iff {x y : Frac} (hx : x.Pos) (hy : y.Pos) :
    x.blt y = true ↔ x.toRat < y.toRat := by
  unfold Frac.blt Frac.toRat
  have hx' : (0 : ℚ) < (x.den : ℚ) := by exact_mod_cast hx
  have hy' : (0 : ℚ) < (y.den : ℚ) := by exact_mod_cast hy
  rw [decide_eq_true_iff, div_lt_div_iff hx' hy']
  exact_mod_cast Iff.rfl

theorem Frac.ble_iff {x y : Frac} (hx : x.Pos) (hy : y.Pos) :
    x.ble y = true ↔ x.toRat ≤ y.toRat := by
  unfold Frac.ble Frac.toRat
  have hx' : (0 : ℚ) < (x.den : ℚ) := by exact_mod_cast hx
  have hy' : (0 : ℚ) < (y.den : ℚ) := by exact_mod_cast hy
  rw [decide_eq_true_iff, div_le_div_iff hx' hy']
  exact_mod_cast Iff.rfl

theorem Frac.beq_iff {x y : Frac} (hx : x.Pos) (hy : y.Pos) :
    x.beq y = true ↔ x.toRat = y.toRat := by
  unfold Frac.beq Frac.toRat
  have hx' : (x.den : ℚ) ≠ 0 := by exact_mod_cast hx.ne'
  have hy' : (y.den : ℚ) ≠ 0 := by exact_mod_cast hy.ne'
  rw [decide_eq_true_iff, div_eq_div_iff hx' hy']
  exact_mod_cast Iff.rfl

theorem sqrt2NonnegZ_iff (a b : ℤ) :
    sqrt2NonnegZ a b = true ↔ 0 ≤ (a : ℝ) + b * Real.sqrt 2 := by
  have hs2 : Real.sqrt 2 ^ 2 = 2 := Real.sq_sqrt (by norm_num)
  have hs0 : 0 ≤ Real.sqrt 2 := Real.sqrt_nonneg 2
  unfold sqrt2NonnegZ
  rcases le_or_lt 0 a with ha | ha <;> rcases le_or_lt 0 b with hb | hb
  · simp only [if_pos ha, if_pos hb]
    constructor
    · intro _
      have : (0:ℝ) ≤ (b:ℝ) * Real.sqrt 2 :=
        mul_nonneg (by exact_mod_cast hb) hs0
      have : (0:ℝ) ≤ (a:ℝ) := by exact_mod_cast ha
      linarith
    · intro _; trivial
  · simp only [if_pos ha, if_neg (not_le.mpr hb), decide_eq_true_iff]
    have hsq : ((-b : ℤ) : ℝ) * Real.sqrt 2 = Real.sqrt (2 * b ^ 2) := by
      rw [Real.sqrt_mul (by norm_num), Real.sqrt_sq_eq_abs]
      have : |(b : ℝ)| = ((-b : ℤ) : ℝ) := by
        rw [abs_of_neg (by exact_mod_cast hb)]
        push_cast
        ring
      rw [this]
      push_cast
      ring
    constructor
    · intro h
      have h1 : Real.sqrt (2 * b ^ 2) ≤ Real.sqrt (a ^ 2) :=
        Real.sqrt_le_sqrt (by exact_mod_cast h)
      have h2 : Real.sqrt ((a : ℝ) ^ 2) = (a : ℝ) :=
        Real.sqrt_sq (by exact_mod_cast ha)
      have h3 : ((-b : ℤ) : ℝ) * Real.sqrt 2 ≤ (a : ℝ) := by
        rw [hsq]
        calc Real.sqrt (2 * b ^ 2) ≤ Real.sqrt ((a : ℝ) ^ 2) := by
              exact_mod_cast h1
          _ = (a : ℝ) := h2
      push_cast at h3
      linarith
    · intro h
      have h3 : ((-b : ℤ) : ℝ) * Real.sqrt 2 ≤ (a : ℝ) := by
        push_cast
        linarith
      have h4 : (((-b : ℤ) : ℝ) * Real.sqrt 2) ^ 2 ≤ (a : ℝ) ^ 2 :=
        pow_le_pow_left (by rw [hsq]; exact Real.sqrt_nonneg _) h3 2
      have h5 : (((-b : ℤ) : ℝ) * Real.sqrt 2) ^ 2 = 2 * (b : ℝ) ^ 2 := by
        rw [mul_pow, hs2]
        push_cast
        ring
      rw [h5] at h4
      exact_mod_cast h4
  · simp only [if_neg (not_le.mpr ha), if_pos hb, decide_eq_true_iff]
    have hsq : ((b : ℤ) : ℝ) * Real.sqrt 2 = Real.sqrt (2 * b ^ 2) := by
      rw [Real.sqrt_mul (by norm_num), Real.sqrt_sq_eq_abs]
      rw [abs_of_nonneg (by exact_mod_cast hb : (0:ℝ) ≤ (b : ℝ))]
      push_cast
      ring
    constructor
    · intro h
      have h1 : Real.sqrt (a ^ 2) ≤ Real.sqrt (2 * b ^ 2) :=
        Real.sqrt_le_sqrt (by exact_mod_cast h)
      have h2 : Real.sqrt ((a : ℝ) ^ 2) = ((-a : ℤ) : ℝ) := by
        rw [Real.sqrt_sq_eq_abs, abs_of_neg (by exact_mod_cast ha : (a:ℝ) < 0)]
        push_cast
        ring
      have h3 : ((-a : ℤ) : ℝ) ≤ (b : ℝ) * Real.sqrt 2 := by
        calc ((-a : ℤ) : ℝ) = Real.sqrt ((a : ℝ) ^ 2) := h2.symm
          _ ≤ Real.sqrt (2 * b ^ 2) := by exact_mod_cast h1
          _ = (b : ℝ) * Real.sqrt 2 := by rw [← hsq]
      push_cast at h3
      linarith
    · intro h
      have h3 : ((-a : ℤ) : ℝ) ≤ (b : ℝ) * Real.sqrt 2 := by
        push_cast
        linarith
      have h4 : ((-a : ℤ) : ℝ) ^ 2 ≤ ((b : ℝ) * Real.sqrt 2) ^ 2 :=
        pow_le_pow_left (by exact_mod_cast (by omega : (0:ℤ) ≤ -a)) h3 2
      have h5 : ((b : ℝ) * Real.sqrt 2) ^ 2 = 2 * (b : ℝ) ^ 2 := by
        rw [mul_pow, hs2]
        ring
      rw [h5] at h4
      have h6 : ((a : ℝ)) ^ 2 ≤ 2 * (b : ℝ) ^ 2 := by
        push_cast at h4
        nlinarith [h4]
      exact_mod_cast h6
  · simp only [if_neg (not_le.mpr ha), if_neg (not_le.mpr hb)]
    constructor
    · intro h
      cases h
    · intro h
      exfalso
      have h1 : (a : ℝ) < 0 := by exact_mod_cast ha
      have h2 : (b : ℝ) * Real.sqrt 2 ≤ 0 :=
        mul_nonpos_of_nonpos_of_nonneg (by exact_mod_cast hb.le) hs0
      linarith

theorem sqrt2NonnegF_iff {x y : Frac} (hx : x.Pos) (hy : y.Pos) :
    sqrt2NonnegF x y = true ↔
      0 ≤ (x.toRat : ℝ) + (y.toRat : ℝ) * Real.sqrt 2 := by
  unfold sqrt2NonnegF
  rw [sqrt2NonnegZ_iff]
  have hD : (0:ℝ) < ((x.den : ℝ) * (y.den : ℝ)) := by
    have h1 : (0:ℝ) < (x.den : ℝ) := by exact_mod_cast hx
    have h2 : (0:ℝ) < (y.den : ℝ) := by exact_mod_cast hy
    exact mul_pos h1 h2
  have key : ((x.num * y.den : ℤ) : ℝ) + ((y.num * x.den : ℤ) : ℝ) * Real.sqrt 2
      = ((x.toRat : ℝ) + (y.toRat : ℝ) * Real.sqrt 2) * ((x.den : ℝ) * (y.den : ℝ)) := by
    unfold Frac.toRat
    have hx' : (x.den : ℝ) ≠ 0 := by
      have : (0:ℝ) < (x.den : ℝ) := by exact_mod_cast hx
      exact this.ne'
    have hy' : (y.den : ℝ) ≠ 0 := by
      have : (0:ℝ) < (y.den : ℝ) := by exact_mod_cast hy
      exact this.ne'
    push_cast
    field_simp
    ring
  rw [key]
  constructor
  · intro h
    nlinarith [h, hD]
  · intro h
    exact mul_nonneg h hD.le

theorem leSqrtF_iff {x y : Frac} (hx : x.Pos) (hy : y.Pos) {h : ℤ} (hh : 0 ≤ h) :
    leSqrtF x y h = true ↔
      (x.toRat : ℝ) + (y.toRat : ℝ) * Real.sqrt 2 ≤ Real.sqrt (h : ℝ) := by
  have hs2 : Real.sqrt 2 ^ 2 = 2 := Real.sq_sqrt (by norm_num)
  have hXP : ((Frac.ofInt h).sub ((x.mul x).add ((Frac.ofInt 2).mul (y.mul y)))).Pos :=
    Frac.Pos.sub (Frac.Pos.ofInt h)
      (Frac.Pos.add (Frac.Pos.mul hx hx) (Frac.Pos.mul (Frac.Pos.ofInt 2) (Frac.Pos.mul hy hy)))
  have hYP : ((((Frac.ofInt 2).mul (x.mul y))).neg).Pos :=
    Frac.Pos.neg (Frac.Pos.mul (Frac.Pos.ofInt 2) (Frac.Pos.mul hx hy))
  set A : ℝ := (x.toRat : ℝ) + (y.toRat : ℝ) * Real.sqrt 2 with hA
  have hval : (((Frac.ofInt h).sub ((x.mul x).add ((Frac.ofInt 2).mul (y.mul y)))).toRat : ℝ)
      + (((((Frac.ofInt 2).mul (x.mul y))).neg).toRat : ℝ) * Real.sqrt 2
      = (h : ℝ) - A ^ 2 := by
    rw [Frac.toRat_sub (Frac.Pos.ofInt h)
      (Frac.Pos.add (Frac.Pos.mul hx hx) (Frac.Pos.mul (Frac.Pos.ofInt 2) (Frac.Pos.mul hy hy))),
      Frac.toRat_add (Frac.Pos.mul hx hx) (Frac.Pos.mul (Frac.Pos.ofInt 2) (Frac.Pos.mul hy hy)),
      Frac.toRat_neg]
    simp only [Frac.toRat_mul, Frac.toRat_ofInt]
    push_cast
    rw [hA]
    linear_combination ((y.toRat : ℝ)) ^ 2 * hs2
  unfold leSqrtF
  rcases hnn : sqrt2NonnegF x y with hf | ht
  · simp only [hnn, Bool.not_false, Bool.true_or, true_iff]
    have hneg : ¬ (0 ≤ A) := by
      intro hc
      have := (sqrt2NonnegF_iff hx hy).mpr hc
      rw [hnn] at this
      cases this
    have : A < 0 := lt_of_not_le hneg
    exact le_trans this.le (Real.sqrt_nonneg _)
  · simp only [hnn, Bool.not_true, Bool.false_or]
    have hAnn : 0 ≤ A := (sqrt2NonnegF_iff hx hy).mp hnn
    rw [sqrt2NonnegF_iff hXP hYP, hval]
    have hiff := Real.le_sqrt hAnn (show (0:ℝ) ≤ (h:ℝ) by exact_mod_cast hh)
    constructor
    · intro hle
      exact hiff.mpr (by linarith)
    · intro hle
      have := hiff.mp hle
      linarith

theorem sqrtLeF_iff {x y : Frac} (hx : x.Pos) (hy : y.Pos) {h : ℤ} (hh : 0 ≤ h) :
    sqrtLeF h x y = true ↔
      Real.sqrt (h : ℝ) ≤ (x.toRat : ℝ) + (y.toRat : ℝ) * Real.sqrt 2 := by
  have hs2 : Real.sqrt 2 ^ 2 = 2 := Real.sq_sqrt (by norm_num)
  have hXP : ((((x.mul x).add ((Frac.ofInt 2).mul (y.mul y)))).sub (Frac.ofInt h)).Pos :=
    Frac.Pos.sub
      (Frac.Pos.add (Frac.Pos.mul hx hx) (Frac.Pos.mul (Frac.Pos.ofInt 2) (Frac.Pos.mul hy hy)))
      (Frac.Pos.ofInt h)
  have hYP : (((Frac.ofInt 2).mul (x.mul y))).Pos :=
    Frac.Pos.mul (Frac.Pos.ofInt 2) (Frac.Pos.mul hx hy)
  set A : ℝ := (x.toRat : ℝ) + (y.toRat : ℝ) * Real.sqrt 2 with hA
  have hval : (((((x.mul x).add ((Frac.ofInt 2).mul (y.mul y)))).sub (Frac.ofInt h)).toRat : ℝ)
      + ((((Frac.ofInt 2).mul (x.mul y))).toRat : ℝ) * Real.sqrt 2
      = A ^ 2 - (h : ℝ) := by
    rw [Frac.toRat_sub
      (Frac.Pos.add (Frac.Pos.mul hx hx) (Frac.Pos.mul (Frac.Pos.ofInt 2) (Frac.Pos.mul hy hy)))
      (Frac.Pos.ofInt h),
      Frac.toRat_add (Frac.Pos.mul hx hx) (Frac.Pos.mul (Frac.Pos.ofInt 2) (Frac.Pos.mul hy hy)),
      ]
    simp only [Frac.toRat_mul, Frac.toRat_ofInt]
    push_cast
    rw [hA]
    linear_combination (-((y.toRat : ℝ)) ^ 2) * hs2
  unfold sqrtLeF
  rcases hnn : sqrt2NonnegF x y with hf | ht
  · simp only [hnn, Bool.false_and, Bool.false_eq_true, false_iff]
    intro hc
    have hneg : ¬ (0 ≤ A) := by
      intro hc2
      have := (sqrt2NonnegF_iff hx hy).mpr hc2
      rw [hnn] at this
      cases this
    exact hneg (le_trans (Real.sqrt_nonneg _) hc)
  · simp only [hnn, Bool.true_and]
    have hAnn : 0 ≤ A := (sqrt2NonnegF_iff hx hy).mp hnn
    rw [sqrt2NonnegF_iff hXP hYP, hval]
    constructor
    · intro hle
      have h2 : (h : ℝ) ≤ A ^ 2 := by linarith
      calc Real.sqrt (h : ℝ) ≤ Real.sqrt (A ^ 2) := Real.sqrt_le_sqrt h2
        _ = A := Real.sqrt_sq hAnn
    · intro hle
      have h2 : Real.sqrt (h : ℝ) ^ 2 ≤ A ^ 2 :=
        pow_le_pow_left (Real.sqrt_nonneg _) hle 2
      rw [Real.sq_sqrt (by exact_mod_cast hh : (0:ℝ) ≤ (h:ℝ))] at h2
      linarith

/-- The signed square `x * |x|` is strictly monotone; this justifies encoding
score comparisons by comparisons of signed squares. -/
theorem mul_abs_lt_mul_abs_iff (x y : ℝ) :
    x * |x| < y * |y| ↔ x < y := by
  have mono : StrictMono (fun t : ℝ => t * |t|) := by
    intro s t hst
    rcases le_or_lt 0 s with hs | hs
    · have ht : 0 < t := lt_of_le_of_lt hs hst
      simp only
      rw [abs_of_nonneg hs, abs_of_pos ht]
      exact mul_self_lt_mul_self hs hst
    · rcases le_or_lt 0 t with ht | ht
      · have h1 : s * |s| < 0 := by
          rw [abs_of_neg hs]
          simpa using mul_pos (neg_pos.mpr hs) (neg_pos.mpr hs)
        have h2 : 0 ≤ t * |t| := mul_nonneg ht (abs_nonneg t)
        exact lt_of_lt_of_le h1 h2
      · simp only
        rw [abs_of_neg hs, abs_of_neg ht]
        have h3 : -t < -s := by linarith
        have h4 : (-t) * (-t) < (-s) * (-s) :=
          mul_self_lt_mul_self (by linarith) h3
        nlinarith [h4]
  exact ⟨fun h => mono.lt_iff_lt.mp h, fun h => mono h⟩

theorem inPlausibleRange_iff {osize : Frac} (ho : osize.Pos) (tsize : ℤ) (shift : ℤ × ℤ) :
    inPlausibleRange osize tsize shift = true ↔ plausibleRangeR osize tsize shift := by
  unfold inPlausibleRange plausibleRangeR
  have hd : ((Frac.ofInt tsize).sub osize).Pos := Frac.Pos.sub (Frac.Pos.ofInt _) ho
  have he : (osize.mul EXTREME_SHIFT).Pos :=
    Frac.Pos.mul ho (by norm_num [EXTREME_SHIFT, Frac.Pos])
  have hh : (0 : ℤ) ≤ shift.1 ^ 2 + shift.2 ^ 2 := by positivity
  rw [Bool.and_eq_true, leSqrtF_iff (Frac.Pos.neg he) hd hh, sqrtLeF_iff he hd hh]
  have h1 : ((osize.mul EXTREME_SHIFT).neg).toRat = -(osize.toRat * (3 / 5)) := by
    rw [Frac.toRat_neg, Frac.toRat_mul]
    norm_num [EXTREME_SHIFT, Frac.toRat]
  have h2 : ((Frac.ofInt tsize).sub osize).toRat = (tsize : ℚ) - osize.toRat := by
    rw [Frac.toRat_sub (Frac.Pos.ofInt _) ho, Frac.toRat_ofInt]
  have h1e : (osize.mul EXTREME_SHIFT).toRat = osize.toRat * (3 / 5) := by
    rw [Frac.toRat_mul]
    norm_num [EXTREME_SHIFT, Frac.toRat]
  have h3 : ((shift.1 ^ 2 + shift.2 ^ 2 : ℤ) : ℝ) = (shift.1 : ℝ) ^ 2 + (shift.2 : ℝ) ^ 2 := by
    push_cast
    ring
  rw [h1, h2, h1e, h3]
  push_cast
  constructor
  · rintro ⟨ha, hb⟩
    exact ⟨by linarith, by linarith⟩
  · rintro ⟨ha, hb⟩
    exact ⟨by linarith, by linarith⟩

/-- The signed-square representation of a score is faithful: for positive
variances, `c * |c| / (vA * vB)` is exactly `r * |r|` for the float
`r = c / (sqrt vA * sqrt vB)` the source returns. -/
theorem signedSquare_of_score (c vA vB : ℝ) (hA : 0 < vA) (hB : 0 < vB) :
    (c * |c|) / (vA * vB) =
      (c / (Real.sqrt vA * Real.sqrt vB)) * |c / (Real.sqrt vA * Real.sqrt vB)| := by
  have hsA : Real.sqrt vA ^ 2 = vA := Real.sq_sqrt hA.le
  have hsB : Real.sqrt vB ^ 2 = vB := Real.sq_sqrt hB.le
  have hpA : 0 < Real.sqrt vA := Real.sqrt_pos.mpr hA
  have hpB : 0 < Real.sqrt vB := Real.sqrt_pos.mpr hB
  rw [abs_div, abs_of_pos (mul_pos hpA hpB)]
  rw [div_mul_div_comm]
  congr 1
  nlinarith [hsA, hsB]

theorem idAddTile_tile_pos (st : IdState) (tile : Tile) (deps : Option (List Tile)) :
    (idAddTile st tile deps).tile_pos = st.tile_pos ++ [tile.pos] := by
  unfold idAddTile
  rcases deps with _ | dl
  · rfl
  · cases dl <;> rfl

theorem runIdAdds_tile_pos (cs : List (Tile × Option (List Tile))) :
    ∀ st : IdState, (runIdAdds st cs).tile_pos = st.tile_pos ++ cs.map (fun c => c.1.pos) := by
  induction cs with
  | nil => intro st; simp [runIdAdds]
  | cons c cs ih =>
    intro st
    show (runIdAdds (idAddTile st c.1 c.2) cs).tile_pos = _
    rw [ih, idAddTile_tile_pos]
    simp

/-- C9: for the `IdentityRegistrar` strategy and every sequence of added
tiles, `getPositions` returns exactly the declared input physical positions
(`tile.metadata` position), unmodified, as the first list, in insertion
order. -/
theorem C9_identity_roundtrip (cs : List (Tile × Option (List Tile))) :
    (idGetPositions (runIdAdds idInit cs)).1 = cs.map (fun c => c.1.pos) := by
  show (runIdAdds idInit cs).tile_pos = _
  rw [runIdAdds_tile_pos]
  simp [idInit]

/-- C10: there is an input sequence (three flat 4x4 tiles at positions
`(0,0)`, `(0,-3)`, `(0,3)` m) for which the third `addTile` computes the grid
slot `(-1, 0)` (`row - 1 = -1` for a reference tile in row 0 with upward
dominant displacement), raises no error, does not grow the grid upward (the
grid still has 2 rows and 1 column), and the negative index silently selects
the last row: the stored tile at index `-1` is the third tile (position
`(0, 3)`), overwriting row 1, and `shifts[1][0]` now holds the new
reconciled position `(0, -3)` computed for the out-of-grid slot. -/
theorem C10_up_insertion_silently_accepted :
    runC10.2 = none ∧
    runC10.1.acqOrder = [(0, 0), (1, 0), (-1, 0)] ∧
    runC10.1.tiles.length = 2 ∧
    (runC10.1.tiles.headD []).length = 1 ∧
    (pyIdx2 runC10.1.tiles (-1) 0).map (Option.map Tile.pos) =
      some (some (Frac.ofInt 0, Frac.ofInt 3)) ∧
    pyIdx2 runC10.1.shifts 1 0 = some (some (0, -3)) := by
  decide

/-- C3 (counterexample): for tile size `(4, 4)` and shift `(-4, 0)`, the
shift magnitude `|-4| = 4` meets the tile extent on the x axis, so by the
claim `_estimateROI` should fail with `NoOverlap`; instead the source only
checks the positive direction and returns the clipped (empty) boxes. -/
theorem C3_counterexample :
    (4 : ℤ) ≤ |(-4 : ℤ)| ∧
    estimateROI (4, 4) (-4, 0) = .ok ((0, 0, 0, 4), (4, 0, 4, 4)) := by
  decide

/-- C3 (amended): `_estimateROI` fails exactly when the shift meets or
exceeds the tile extent in the **positive** direction on some axis
(`shift[0] >= size[1]` or `shift[1] >= size[0]`); large negative shifts do
not fail but yield clipped (possibly empty) regions.  When it succeeds, each
returned box is exactly the tile rectangle intersected with the
(`+shift` resp. `-shift`)-translated tile rectangle. -/
theorem C3_amended_roi (size : ℕ × ℕ) (shift : ℤ × ℤ) :
    (estimateROI size shift = .error .valueError ↔
      (size.2 : ℤ) ≤ shift.1 ∨ (size.1 : ℤ) ≤ shift.2)
    ∧ (∀ r1 r2, estimateROI size shift = .ok (r1, r2) →
        (∀ x : ℤ, (r1.1 ≤ x ∧ x < r1.2.2.1) ↔
          (0 ≤ x ∧ x < (size.2 : ℤ) ∧ shift.1 ≤ x ∧ x < shift.1 + size.2)) ∧
        (∀ y : ℤ, (r1.2.1 ≤ y ∧ y < r1.2.2.2) ↔
          (0 ≤ y ∧ y < (size.1 : ℤ) ∧ shift.2 ≤ y ∧ y < shift.2 + size.1)) ∧
        (∀ x : ℤ, (r2.1 ≤ x ∧ x < r2.2.2.1) ↔
          (0 ≤ x ∧ x < (size.2 : ℤ) ∧ -shift.1 ≤ x ∧ x < -shift.1 + size.2)) ∧
        (∀ y : ℤ, (r2.2.1 ≤ y ∧ y < r2.2.2.2) ↔
          (0 ≤ y ∧ y < (size.1 : ℤ) ∧ -shift.2 ≤ y ∧ y < -shift.2 + size.1))) := by
  constructor
  · unfold estimateROI
    split
    · rename_i h
      exact iff_of_true rfl h
    · rename_i h
      exact iff_of_false (fun hc => by cases hc) h
  · intro r1 r2 h
    unfold estimateROI at h
    split at h
    · cases h
    · rename_i hcond
      simp only [Except.ok.injEq, Prod.mk.injEq] at h
      obtain ⟨h1, h2⟩ := h
      subst h1
      subst h2
      refine ⟨fun x => ?_, fun y => ?_, fun x => ?_, fun y => ?_⟩ <;> (dsimp only; omega)

/-- C3 (amended) witness at a concrete input. -/
theorem C3_amended_roi_witness :
    estimateROI (4, 4) (1, 0) = .ok ((1, 0, 4, 4), (0, 0, 3, 4)) ∧
    ((1 : ℤ) ≤ 2 ∧ (2 : ℤ) < 4) ∧ (0 ≤ (2 : ℤ) ∧ (2 : ℤ) < 4 ∧ (1 : ℤ) ≤ 2 ∧ (2 : ℤ) < 1 + 4) :=
  ⟨by decide, by decide,
    ((C3_amended_roi (4, 4) (1, 0)).2 (1, 0, 4, 4) (0, 0, 3, 4) (by decide)).1 2 |>.mp
      (by decide)⟩

/-- C2 (counterexample): in a reachable session state (`osize = 1/5`,
`tsize = 3`), the shift `(4, 0)` has `hypot = 4` inside the claimed interval
`[2.8 * sqrt 2 - 0.12, 2.8 * sqrt 2 + 0.12]`, yet `_estimateMatch` neither
returns `0` nor a covariance score: the unguarded `_estimateROI` call raises
(`4 >= size[1] = 4`), and the exception propagates. -/
theorem C2_counterexample :
    plausibleRangeR stC2.osize stC2.tsize (4, 0) ∧
    estimateMatch stC2 flatImage flatImage (4, 0) = .error RegErr.valueError := by
  constructor
  · exact (inPlausibleRange_iff (by decide) stC2.tsize (4, 0)).mp (by decide)
  · decide

/-- C2 (amended): `_estimateMatch` returns exactly `0` when `hypot shift`
lies outside the closed interval
`[sqrt 2 * (tsize - osize) - osize * 0.6, sqrt 2 * (tsize - osize) + osize * 0.6]`
(before any pixel comparison), and also when either cropped region has zero
variance (zero standard deviation); for shifts inside the interval that
admit no overlap it does **not** return: a positive-direction
out-of-extent shift raises `ValueError` from the unguarded `_estimateROI`,
and an empty clipped region produces a float `nan`; otherwise it returns the
score `covar / (stdDevA * stdDevB)` (represented by its signed square, see
`signedSquare_of_score`). -/
theorem C2_amended_match (st : RState) (A B : Image) (s : ℤ × ℤ) (ho : st.osize.Pos) :
    (¬ plausibleRangeR st.osize st.tsize s →
      estimateMatch st A B s = .ok (.val (Frac.ofInt 0)))
    ∧ (plausibleRangeR st.osize st.tsize s →
        ((st.size.2 : ℤ) ≤ s.1 ∨ (st.size.1 : ℤ) ≤ s.2) →
        estimateMatch st A B s = .error RegErr.valueError)
    ∧ (∀ r1 r2, plausibleRangeR st.osize st.tsize s → estimateROI st.size s = .ok (r1, r2) →
        (roiSizeN r1 = 0 ∨ roiSizeN r2 = 0 → estimateMatch st A B s = .ok .nan)
        ∧ (¬ (roiSizeN r1 = 0 ∨ roiSizeN r2 = 0) →
            ((roiVar A r1).beq (Frac.ofInt 0) || (roiVar B r2).beq (Frac.ofInt 0)) = true →
            estimateMatch st A B s = .ok (.val (Frac.ofInt 0)))
        ∧ (¬ (roiSizeN r1 = 0 ∨ roiSizeN r2 = 0) →
            ((roiVar A r1).beq (Frac.ofInt 0) || (roiVar B r2).beq (Frac.ofInt 0)) = false →
            estimateMatch st A B s =
              .ok (.val (((roiCovar A B r1 r2).mul (roiCovar A B r1 r2).fabs).div
                ((roiVar A r1).mul (roiVar B r2)))))) := by
  have hguard := inPlausibleRange_iff ho st.tsize s
  refine ⟨fun hnp => ?_, fun hp hx => ?_, fun r1 r2 hp hroi => ?_⟩
  · have hb : inPlausibleRange st.osize st.tsize s = false := by
      cases hv : inPlausibleRange st.osize st.tsize s
      · rfl
      · exact absurd (hguard.mp hv) hnp
    unfold estimateMatch
    rw [hb]
    rfl
  · have hb : inPlausibleRange st.osize st.tsize s = true := hguard.mpr hp
    have hroi : estimateROI st.size s = .error .valueError := by
      unfold estimateROI
      rw [if_pos]
      exact hx
    unfold estimateMatch
    rw [hb, hroi]
    rfl
  · have hb : inPlausibleRange st.osize st.tsize s = true := hguard.mpr hp
    refine ⟨fun hn => ?_, fun hn hv => ?_, fun hn hv => ?_⟩
    · unfold estimateMatch
      rw [hb, if_neg (by simp)]
      simp only [hroi]
      rw [if_pos hn]
    · unfold estimateMatch
      rw [hb, if_neg (by simp)]
      simp only [hroi]
      rw [if_neg hn, hv, if_pos rfl]
    · unfold estimateMatch
      rw [hb, if_neg (by simp)]
      simp only [hroi]
      rw [if_neg hn, hv, if_neg (by simp)]

/-- C2 (amended) witness: in the `stC2` state the shift `(0, 0)` is below
the plausible interval, so the match is forced to `0`. -/
theorem C2_amended_match_witness :
    estimateMatch stC2 flatImage flatImage (0, 0) = .ok (.val (Frac.ofInt 0)) :=
  (C2_amended_match stC2 flatImage flatImage (0, 0) (by decide)).1
    (fun hpl => absurd ((inPlausibleRange_iff (by decide) stC2.tsize (0, 0)).mpr hpl)
      (by decide))

/-- C1 (counterexample): after the L-shaped mosaic `traceC1`
(`(0,0), (1,0), (1,1)`), adding `tileC1` computes slot `(0, 1)` — not
`(0, 0)` — and its registration has **neither** a horizontal nor a vertical
estimate (`pos_prev_x = col` so no left/right comparison, and `row = 0` so no
top comparison): the "neither estimate exists" case is not exclusive to slot
`(0, 0)`.  The stored position is the ideal grid position
`(int(1 * 4 * (1 - 1/2)), int(0 * ...)) = (2, 0)`, and no error is raised. -/
theorem C1_counterexample :
    runC1.2 = none ∧
    (placeTile stC1 tileC1).map (fun p => (p.2.1, p.2.2)) = some ((0 : ℤ), (1 : ℤ)) ∧
    ((0 : ℤ), (1 : ℤ)) ≠ ((0 : ℤ), (0 : ℤ)) ∧
    (estimatesPair zeroOracle stC1stored.1 stC1stored.2.1 stC1stored.2.2).map
      (fun r => (r.2.1.1, r.2.2.1)) = .ok (none, none) ∧
    pyIdx2 runC1.1.shifts 0 1 = some (some (2, 0)) := by
  decide

/-- C1 (amended): the reconciliation case analysis of
`_compute_registration`, for real-valued (non-`nan`) match scores.  Scores
carry their signed squares (`Score.val m` stands for the float `r` with
`r * |r| = m`), so "the match exceeds `GOOD_MATCH = 0.2`" is
`(1/5)^2 < m.toRat` and the score comparisons become comparisons of the
`toRat` values (`mul_abs_lt_mul_abs_iff`).  If neither estimate exists the
position is the ideal grid position `(ox, oy)`; if exactly one exists it is
used; if both exist and both matches exceed `GOOD_MATCH` the
truncated-toward-zero average is used; otherwise the higher-match estimate
is used (the horizontal one on ties), except that when both matches are
exactly `0` the ideal grid position is used. -/
theorem C1_amended_reconcile (m m2 : Frac) (hm : m.Pos) (hm2 : m2.Pos) (ox oy : ℤ) :
    (reconcile none none (.val m) (.val m2) ox oy = (ox, oy))
    ∧ (∀ q2 : ℤ × ℤ, reconcile none (some q2) (.val m) (.val m2) ox oy = q2)
    ∧ (∀ q : ℤ × ℤ, reconcile (some q) none (.val m) (.val m2) ox oy = q)
    ∧ (∀ q q2 : ℤ × ℤ, (1 / 5 : ℚ) ^ 2 < m.toRat → (1 / 5 : ℚ) ^ 2 < m2.toRat →
        reconcile (some q) (some q2) (.val m) (.val m2) ox oy =
          (Int.tdiv (q.1 + q2.1) 2, Int.tdiv (q.2 + q2.2) 2))
    ∧ (∀ q q2 : ℤ × ℤ, ¬ ((1 / 5 : ℚ) ^ 2 < m.toRat ∧ (1 / 5 : ℚ) ^ 2 < m2.toRat) →
        m.toRat < m2.toRat →
        reconcile (some q) (some q2) (.val m) (.val m2) ox oy = q2)
    ∧ (∀ q q2 : ℤ × ℤ, ¬ ((1 / 5 : ℚ) ^ 2 < m.toRat ∧ (1 / 5 : ℚ) ^ 2 < m2.toRat) →
        m2.toRat ≤ m.toRat → ¬ (m.toRat = 0 ∧ m2.toRat = 0) →
        reconcile (some q) (some q2) (.val m) (.val m2) ox oy = q)
    ∧ (∀ q q2 : ℤ × ℤ, m.toRat = 0 → m2.toRat = 0 →
        reconcile (some q) (some q2) (.val m) (.val m2) ox oy = (ox, oy)) := by
  have hg : (GOOD_MATCH.mul GOOD_MATCH).Pos := by decide
  have hgval : (GOOD_MATCH.mul GOOD_MATCH).toRat = (1 / 5 : ℚ) ^ 2 := by
    norm_num [GOOD_MATCH, Frac.mul, Frac.toRat]
  have hzval : (Frac.ofInt 0).toRat = (0 : ℚ) := by
    norm_num [Frac.ofInt, Frac.toRat]
  have hgt : ∀ x : Frac, x.Pos →
      ((Score.val x).gtTh GOOD_MATCH = true ↔ (1 / 5 : ℚ) ^ 2 < x.toRat) := by
    intro x hx
    show (GOOD_MATCH.mul GOOD_MATCH).blt x = true ↔ _
    rw [Frac.blt_iff hg hx, hgval]
  have hsgt : (Score.val m2).sgt (Score.val m) = true ↔ m.toRat < m2.toRat := by
    show m.blt m2 = true ↔ _
    rw [Frac.blt_iff hm hm2]
  have heq0 : ∀ x : Frac, x.Pos → ((Score.val x).eqZero = true ↔ x.toRat = 0) := by
    intro x hx
    show x.beq (Frac.ofInt 0) = true ↔ _
    rw [Frac.beq_iff hx (Frac.Pos.ofInt 0), hzval]
  have havg : ∀ a : ℤ, Frac.pyint (Frac.div (Frac.ofInt a) (Frac.ofInt 2)) = Int.tdiv a 2 := by
    intro a
    norm_num [Frac.div, Frac.inv, Frac.ofInt, Frac.mul, Frac.pyint]
  refine ⟨rfl, fun q2 => rfl, fun q => rfl, fun q q2 h1 h2 => ?_, fun q q2 h1 h2 => ?_,
    fun q q2 h1 h2 h3 => ?_, fun q q2 h1 h2 => ?_⟩
  · show (if ((Score.val m).gtTh GOOD_MATCH && (Score.val m2).gtTh GOOD_MATCH) = true
        then _ else _) = _
    rw [if_pos (by rw [Bool.and_eq_true, hgt m hm, hgt m2 hm2]; exact ⟨h1, h2⟩)]
    rw [havg, havg]
  · show (if ((Score.val m).gtTh GOOD_MATCH && (Score.val m2).gtTh GOOD_MATCH) = true
        then _ else _) = _
    rw [if_neg (by rw [Bool.and_eq_true, hgt m hm, hgt m2 hm2]; exact h1)]
    rw [if_pos (hsgt.mpr h2)]
  · show (if ((Score.val m).gtTh GOOD_MATCH && (Score.val m2).gtTh GOOD_MATCH) = true
        then _ else _) = _
    rw [if_neg (by rw [Bool.and_eq_true, hgt m hm, hgt m2 hm2]; exact h1)]
    rw [if_neg (by rw [hsgt]; exact not_lt.mpr h2)]
    rw [if_neg (by
      rw [Bool.and_eq_true, heq0 m2 hm2, heq0 m hm]
      intro hc
      exact h3 ⟨hc.2, hc.1⟩)]
  · show (if ((Score.val m).gtTh GOOD_MATCH && (Score.val m2).gtTh GOOD_MATCH) = true
        then _ else _) = _
    rw [if_neg (by
      rw [Bool.and_eq_true, hgt m hm, hgt m2 hm2]
      intro hc
      rw [h1] at hc
      have := hc.1
      norm_num at this)]
    rw [if_neg (by rw [hsgt, h1, h2]; exact lt_irrefl 0)]
    rw [if_pos (by rw [Bool.and_eq_true, heq0 m2 hm2, heq0 m hm]; exact ⟨h2, h1⟩)]

/-- C1 (amended) witness: both estimates exist with matches `0`, and the
ideal grid position is chosen. -/
theorem C1_amended_reconcile_witness :
    (Frac.ofInt 0).Pos ∧ (Frac.ofInt 0).toRat = 0 ∧
    reconcile (some (5, 6)) (some (7, 8)) (.val (Frac.ofInt 0)) (.val (Frac.ofInt 0)) 1 2
      = (1, 2) :=
  ⟨by decide, by norm_num [Frac.ofInt, Frac.toRat],
    (C1_amended_reconcile (Frac.ofInt 0) (Frac.ofInt 0) (by decide) (by decide) 1 2).2.2.2.2.2.2
      (5, 6) (7, 8) (by norm_num [Frac.ofInt, Frac.toRat]) (by norm_num [Frac.ofInt, Frac.toRat])⟩

theorem fracSum_Pos : ∀ {l : List Frac}, (∀ x ∈ l, x.Pos) → (fracSum l).Pos := by
  intro l
  induction l with
  | nil => intro _; exact Frac.Pos.ofInt 0
  | cons a l ih =>
    intro h
    exact Frac.Pos.add (h a (by simp)) (ih (fun x hx => h x (by simp [hx])))

theorem fracSum_toRat : ∀ {l : List Frac}, (∀ x ∈ l, x.Pos) →
    (fracSum l).toRat = (l.map Frac.toRat).sum := by
  intro l
  induction l with
  | nil => intro _; simp [fracSum, Frac.toRat, Frac.ofInt]
  | cons a l ih =>
    intro h
    show (a.add (fracSum l)).toRat = _
    rw [Frac.toRat_add (h a (by simp)) (fracSum_Pos (fun x hx => h x (by simp [hx]))),
      ih (fun x hx => h x (by simp [hx]))]
    simp

theorem distProdSum_Pos (A B : Image) (tA lA tB lB h w : ℤ) {avgA avgB : Frac}
    (hA : avgA.Pos) (hB : avgB.Pos) :
    (distProdSum A B tA lA tB lB h w avgA avgB).Pos := by
  apply fracSum_Pos
  intro x hx
  simp only [List.mem_map] at hx
  obtain ⟨p, _, rfl⟩ := hx
  exact Frac.Pos.mul (Frac.Pos.sub (Frac.Pos.ofInt _) hA) (Frac.Pos.sub (Frac.Pos.ofInt _) hB)

theorem distProdSum_toRat (A B : Image) (tA lA tB lB h w : ℤ) {avgA avgB : Frac}
    (hA : avgA.Pos) (hB : avgB.Pos) :
    (distProdSum A B tA lA tB lB h w avgA avgB).toRat =
      ((boxIdx h w).map (fun p =>
        (((A (tA + p.1) (lA + p.2) : ℤ) : ℚ) - avgA.toRat) *
          (((B (tB + p.1) (lB + p.2) : ℤ) : ℚ) - avgB.toRat))).sum := by
  unfold distProdSum
  rw [fracSum_toRat (by
    intro x hx
    simp only [List.mem_map] at hx
    obtain ⟨p, _, rfl⟩ := hx
    exact Frac.Pos.mul (Frac.Pos.sub (Frac.Pos.ofInt _) hA)
      (Frac.Pos.sub (Frac.Pos.ofInt _) hB))]
  rw [List.map_map]
  have hfun : (Frac.toRat ∘ fun p : ℤ × ℤ =>
      ((Frac.ofInt (A (tA + p.1) (lA + p.2))).sub avgA).mul
        ((Frac.ofInt (B (tB + p.1) (lB + p.2))).sub avgB)) =
      fun p : ℤ × ℤ =>
        (((A (tA + p.1) (lA + p.2) : ℤ) : ℚ) - avgA.toRat) *
          (((B (tB + p.1) (lB + p.2) : ℤ) : ℚ) - avgB.toRat) := by
    funext p
    show (((Frac.ofInt (A (tA + p.1) (lA + p.2))).sub avgA).mul
      ((Frac.ofInt (B (tB + p.1) (lB + p.2))).sub avgB)).toRat = _
    rw [Frac.toRat_mul, Frac.toRat_sub (Frac.Pos.ofInt _) hA,
      Frac.toRat_sub (Frac.Pos.ofInt _) hB, Frac.toRat_ofInt, Frac.toRat_ofInt]
  rw [hfun]

theorem list_sq_sum_nonneg {α : Type} (l : List α) (f : α → ℚ) :
    0 ≤ (l.map (fun a => f a * f a)).sum := by
  apply List.sum_nonneg
  intro x hx
  simp only [List.mem_map] at hx
  obtain ⟨a, _, rfl⟩ := hx
  exact mul_self_nonneg _

/-- Cauchy-Schwarz inequality for list sums. -/
theorem list_cauchy_schwarz {α : Type} (l : List α) (f g : α → ℚ) :
    ((l.map (fun a => f a * g a)).sum) * ((l.map (fun a => f a * g a)).sum) ≤
      ((l.map (fun a => f a * f a)).sum) * ((l.map (fun a => g a * g a)).sum) := by
  induction l with
  | nil => simp
  | cons a l ih =>
    simp only [List.map_cons, List.sum_cons]
    have hA := list_sq_sum_nonneg l f
    have hB := list_sq_sum_nonneg l g
    rcases eq_or_lt_of_le hB with hB0 | hBpos
    · have hS : (l.map (fun a => f a * g a)).sum = 0 := by nlinarith
      rw [hS]
      nlinarith [mul_self_nonneg (f a * g a), mul_self_nonneg (g a),
        mul_nonneg hA (mul_self_nonneg (g a))]
    · nlinarith [sq_nonneg (f a * (l.map (fun a => g a * g a)).sum -
        g a * (l.map (fun a => f a * g a)).sum),
        mul_nonneg hA (mul_self_nonneg (g a)), mul_pos hBpos hBpos,
        mul_le_mul_of_nonneg_right ih (le_of_lt hBpos)]

theorem estimateROI_dims {size : ℕ × ℕ} {shift : ℤ × ℤ} {r1 r2 : ℤ × ℤ × ℤ × ℤ}
    (h : estimateROI size shift = .ok (r1, r2)) :
    0 ≤ r1.2.2.2 - r1.2.1 ∧ 0 ≤ r1.2.2.1 - r1.1 ∧
      r1.2.2.2 - r1.2.1 = r2.2.2.2 - r2.2.1 ∧ r1.2.2.1 - r1.1 = r2.2.2.1 - r2.1 := by
  unfold estimateROI at h
  split at h
  · cases h
  · rename_i hcond
    simp only [Except.ok.injEq, Prod.mk.injEq] at h
    obtain ⟨h1, h2⟩ := h
    subst h1
    subst h2
    refine ⟨?_, ?_, ?_, ?_⟩ <;> (dsimp only; omega)

/-- C4 (counterexample): in a reachable session state, two anti-correlated
images (rows `0,1,0,1` against `1,0,1,0`) at the in-range shift `(3, 0)` make
`_estimateMatch` return `-1`: the score is a normalized covariance and is
negative for anti-correlated overlap regions, so it does not lie in `[0, 1]`.
(The signed square of the returned float equals the float itself here:
both are `-1`.) -/
theorem C4_counterexample :
    (matchValue (estimateMatch stC4 imgA4 imgB4 (3, 0))).map
      (fun m => (m.blt (Frac.ofInt 0), m.beq (Frac.ofInt (-1)))) = some (true, true) := by
  decide

/-- C4 (amended): whenever `_estimateMatch` returns a value, that value lies
in `[-1, 1]`; it is forced to exactly `0` by the plausible-range guard and by
the degenerate (zero standard deviation) test, and it can be negative (see
`C4_counterexample`), so `[0, 1]` is wrong but `[-1, 1]` holds by the
Cauchy-Schwarz inequality.  The value is encoded by its signed square `μ`,
and `μ.toRat ∈ [-1, 1]` iff the float is in `[-1, 1]`
(`mul_abs_lt_mul_abs_iff`, `signedSquare_of_score`). -/
theorem C4_amended_bounds (st : RState) (A B : Image) (s : ℤ × ℤ) (μ : Frac)
    (h : estimateMatch st A B s = .ok (.val μ)) :
    -1 ≤ μ.toRat ∧ μ.toRat ≤ 1 := by
  have h0 : (Frac.ofInt 0).toRat = 0 := by norm_num [Frac.ofInt, Frac.toRat]
  unfold estimateMatch at h
  split at h
  · simp only [Except.ok.injEq, Score.val.injEq] at h
    rw [← h, h0]
    norm_num
  · split at h
    · cases h
    · rename_i r1 r2 heq
      split at h
      · exact absurd h (by simp)
      · rename_i hn
        simp only [] at h
        split at h
        · simp only [Except.ok.injEq, Score.val.injEq] at h
          rw [← h, h0]
          norm_num
        · rename_i hv
          rw [Bool.not_eq_true] at hv
          simp only [Except.ok.injEq, Score.val.injEq] at h
          obtain ⟨hh0, hw0, hdh, hdw⟩ := estimateROI_dims heq
          have hne : roiSizeN r1 ≠ 0 := fun hc => hn (Or.inl hc)
          have hnn : 0 < roiSizeN r1 := by
            unfold roiSizeN at hne ⊢
            rcases lt_or_eq_of_le hh0 with hh1 | hh1
            · rcases lt_or_eq_of_le hw0 with hw1 | hw1
              · exact mul_pos hh1 hw1
              · exact absurd (by rw [← hw1, mul_zero]) hne
            · exact absurd (by rw [← hh1, zero_mul]) hne
          have hn2 : roiSizeN r2 = roiSizeN r1 := by
            unfold roiSizeN
            rw [← hdh, ← hdw]
          have havgA : (roiAvg A r1).Pos := Frac.Pos.div (Frac.Pos.ofInt _) _
          have havgB : (roiAvg B r2).Pos := Frac.Pos.div (Frac.Pos.ofInt _) _
          have hcovP : (roiCovar A B r1 r2).Pos :=
            Frac.Pos.div (distProdSum_Pos _ _ _ _ _ _ _ _ havgA havgB) _
          have hvAP : (roiVar A r1).Pos :=
            Frac.Pos.div (distProdSum_Pos _ _ _ _ _ _ _ _ havgA havgA) _
          have hvBP : (roiVar B r2).Pos :=
            Frac.Pos.div (distProdSum_Pos _ _ _ _ _ _ _ _ havgB havgB) _
          have hnQ : (0 : ℚ) < ((roiSizeN r1 : ℤ) : ℚ) := by exact_mod_cast hnn
          -- the three rational sums
          set DA := (distProdSum A B r1.2.1 r1.1 r2.2.1 r2.1
            (r1.2.2.2 - r1.2.1) (r1.2.2.1 - r1.1) (roiAvg A r1) (roiAvg B r2)).toRat with hDA
          set VA := (distProdSum A A r1.2.1 r1.1 r1.2.1 r1.1
            (r1.2.2.2 - r1.2.1) (r1.2.2.1 - r1.1) (roiAvg A r1) (roiAvg A r1)).toRat with hVA
          set VB := (distProdSum B B r2.2.1 r2.1 r2.2.1 r2.1
            (r2.2.2.2 - r2.2.1) (r2.2.2.1 - r2.1) (roiAvg B r2) (roiAvg B r2)).toRat with hVB
          have hVAnn : 0 ≤ VA := by
            rw [hVA, distProdSum_toRat A A _ _ _ _ _ _ havgA havgA]
            exact list_sq_sum_nonneg _ _
          have hVBnn : 0 ≤ VB := by
            rw [hVB, distProdSum_toRat B B _ _ _ _ _ _ havgB havgB]
            exact list_sq_sum_nonneg _ _
          have hCS : DA * DA ≤ VA * VB := by
            rw [hDA, hVA, hVB, distProdSum_toRat A B _ _ _ _ _ _ havgA havgB,
              distProdSum_toRat A A _ _ _ _ _ _ havgA havgA,
              distProdSum_toRat B B _ _ _ _ _ _ havgB havgB, ← hdh, ← hdw]
            exact list_cauchy_schwarz _ _ _
          -- values of the statistics
          have hcRval : (roiCovar A B r1 r2).toRat = DA / ((roiSizeN r1 : ℤ) : ℚ) := by
            unfold roiCovar
            rw [Frac.toRat_div _ (Frac.Pos.ofInt _), Frac.toRat_ofInt]
          have hvARval : (roiVar A r1).toRat = VA / ((roiSizeN r1 : ℤ) : ℚ) := by
            unfold roiVar
            rw [Frac.toRat_div _ (Frac.Pos.ofInt _), Frac.toRat_ofInt]
          have hvBRval : (roiVar B r2).toRat = VB / ((roiSizeN r1 : ℤ) : ℚ) := by
            unfold roiVar
            rw [Frac.toRat_div _ (Frac.Pos.ofInt _), Frac.toRat_ofInt, hn2]
          -- the variances are nonzero
          have hvA0 : (roiVar A r1).toRat ≠ 0 := by
            intro hc
            have hb : (roiVar A r1).beq (Frac.ofInt 0) = true :=
              (Frac.beq_iff hvAP (Frac.Pos.ofInt 0)).mpr (by rw [h0]; exact hc)
            rw [(Bool.or_eq_false_iff.mp hv).1] at hb
            cases hb
          have hvB0 : (roiVar B r2).toRat ≠ 0 := by
            intro hc
            have hb : (roiVar B r2).beq (Frac.ofInt 0) = true :=
              (Frac.beq_iff hvBP (Frac.Pos.ofInt 0)).mpr (by rw [h0]; exact hc)
            rw [(Bool.or_eq_false_iff.mp hv).2] at hb
            cases hb
          have hVA0 : 0 < VA := by
            rcases lt_or_eq_of_le hVAnn with h1 | h1
            · exact h1
            · exact absurd (by rw [hvARval, ← h1, zero_div]) hvA0
          have hVB0 : 0 < VB := by
            rcases lt_or_eq_of_le hVBnn with h1 | h1
            · exact h1
            · exact absurd (by rw [hvBRval, ← h1, zero_div]) hvB0
          have hD : 0 < (roiVar A r1).toRat * (roiVar B r2).toRat := by
            rw [hvARval, hvBRval]
            exact mul_pos (div_pos hVA0 hnQ) (div_pos hVB0 hnQ)
          have hμval : μ.toRat =
              ((roiCovar A B r1 r2).toRat * |(roiCovar A B r1 r2).toRat|) /
                ((roiVar A r1).toRat * (roiVar B r2).toRat) := by
            rw [← h, Frac.toRat_div _ (Frac.Pos.mul hvAP hvBP), Frac.toRat_mul,
              Frac.toRat_mul, Frac.toRat_fabs hcovP]
          have hfinal : |μ.toRat| ≤ 1 := by
            rw [hμval, abs_div, abs_of_pos hD, abs_mul, abs_abs, abs_mul_abs_self]
            rw [div_le_one hD]
            calc (roiCovar A B r1 r2).toRat * (roiCovar A B r1 r2).toRat
                = (DA * DA) / (((roiSizeN r1 : ℤ) : ℚ) * ((roiSizeN r1 : ℤ) : ℚ)) := by
                  rw [hcRval, div_mul_div_comm]
              _ ≤ (VA * VB) / (((roiSizeN r1 : ℤ) : ℚ) * ((roiSizeN r1 : ℤ) : ℚ)) :=
                  (div_le_div_right (mul_pos hnQ hnQ)).mpr hCS
              _ = (roiVar A r1).toRat * (roiVar B r2).toRat := by
                  rw [hvARval, hvBRval, div_mul_div_comm]
          exact abs_le.mp hfinal

/-- C4 (amended) witness: the out-of-range shift `(0, 0)` in the `stC4`
state returns exactly `0`, which lies in `[-1, 1]`. -/
theorem C4_amended_bounds_witness :
    -1 ≤ (Frac.ofInt 0).toRat ∧ (Frac.ofInt 0).toRat ≤ 1 :=
  C4_amended_bounds stC4 flatImage flatImage (0, 0) (Frac.ofInt 0) (by decide)

/-! ### Error classification

No branch of the estimation pipeline can raise the ordering error: it
originates only in the guard of `_compute_registration`. -/

theorem estimateROI_no_ordering (size : ℕ × ℕ) (s : ℤ × ℤ) :
    estimateROI size s ≠ .error RegErr.orderingError := by
  intro h
  unfold estimateROI at h
  split at h <;> simp_all

theorem estimateMatch_no_ordering (st : RState) (A B : Image) (s : ℤ × ℤ) :
    estimateMatch st A B s ≠ .error RegErr.orderingError := by
  intro h
  unfold estimateMatch at h
  simp only [] at h
  repeat' split at h
  all_goals simp_all [estimateROI_no_ordering]

theorem getShift_no_ordering (O : Oracle) (st : RState) (pA pB : Image) (s : ℤ × ℤ) :
    getShift O st pA pB s ≠ .error RegErr.orderingError := by
  intro h
  unfold getShift at h
  repeat' split at h
  all_goals simp_all [estimateROI_no_ordering]

theorem getShiftDir_no_ordering (O : Oracle) (st : RState) (pA pB : Image) (xdir : ℤ)
    (s : ℤ × ℤ) : getShiftDir O st pA pB xdir s ≠ .error RegErr.orderingError := by
  intro h
  unfold getShiftDir at h
  split at h
  · exact getShift_no_ordering O st pA pB s h
  · cases hg : getShift O st pB pA s with
    | error e =>
      rw [hg] at h
      simp only [Except.map] at h
      injection h with h1
      exact getShift_no_ordering O st pB pA s (h1 ▸ hg)
    | ok v =>
      rw [hg] at h
      simp only [Except.map] at h
      exact Except.noConfusion h

theorem posToLeftRightFinish_no_ordering (st : RState) (row col xdir : ℤ) (pp : ℤ × ℤ)
    (x y : ℤ) (m : Score) :
    posToLeftRightFinish st row col xdir pp x y m ≠ .error RegErr.orderingError := by
  intro h
  unfold posToLeftRightFinish at h
  simp only [] at h
  repeat' split at h
  all_goals simp_all

theorem posToTopFinish_no_ordering (st : RState) (row col : ℤ) (pp : ℤ × ℤ)
    (x y : ℤ) (m : Score) :
    posToTopFinish st row col pp x y m ≠ .error RegErr.orderingError := by
  intro h
  unfold posToTopFinish at h
  simp only [] at h
  repeat' split at h
  all_goals simp_all

theorem posToLeftRight_no_ordering (O : Oracle) (st : RState) (row col xdir : ℤ) :
    posToLeftRight O st row col xdir ≠ .error RegErr.orderingError := by
  intro h
  unfold posToLeftRight at h
  simp only [] at h
  repeat' split at h
  all_goals first
    | exact posToLeftRightFinish_no_ordering _ _ _ _ _ _ _ _ h
    | simp_all [getShiftDir_no_ordering, getShift_no_ordering, estimateMatch_no_ordering]

theorem posToTop_no_ordering (O : Oracle) (st : RState) (row col : ℤ) :
    posToTop O st row col ≠ .error RegErr.orderingError := by
  intro h
  unfold posToTop at h
  simp only [] at h
  repeat' split at h
  all_goals first
    | exact posToTopFinish_no_ordering _ _ _ _ _ _ _ h
    | simp_all [getShift_no_ordering, estimateMatch_no_ordering]

theorem horEstimate_no_ordering (O : Oracle) (st : RState) (row col : ℤ) :
    horEstimate O st row col ≠ .error RegErr.orderingError := by
  intro h
  unfold horEstimate at h
  repeat' split at h
  all_goals first
    | exact posToLeftRight_no_ordering _ _ _ _ _ h
    | simp_all

theorem verEstimate_no_ordering (O : Oracle) (st : RState) (row col : ℤ) :
    verEstimate O st row col ≠ .error RegErr.orderingError := by
  intro h
  unfold verEstimate at h
  repeat' split at h
  all_goals first
    | exact posToTop_no_ordering _ _ _ _ h
    | simp_all

theorem estimatesPair_no_ordering (O : Oracle) (st : RState) (row col : ℤ) :
    estimatesPair O st row col ≠ .error RegErr.orderingError := by
  intro h
  unfold estimatesPair at h
  repeat' split at h
  all_goals simp_all [horEstimate_no_ordering, verEstimate_no_ordering]

/-! ### Frame lemmas

The estimation pipeline only writes `last_hor`/`last_ver` and
`coords_hor`/`coords_ver`: acquisition order, dependent-tile offsets, tile
shape and pixel size pass through unchanged. -/

theorem posToLeftRightFinish_frame {st : RState} {row col xdir : ℤ} {pp : ℤ × ℤ}
    {x y : ℤ} {m : Score} {st' : RState} {p : Option (ℤ × ℤ)} {m' : Score}
    (h : posToLeftRightFinish st row col xdir pp x y m = .ok (st', p, m')) :
    st'.acqOrder = st.acqOrder ∧ st'.shift_tile_dep_tiles = st.shift_tile_dep_tiles ∧
      st'.size = st.size ∧ st'.px_size = st.px_size := by
  unfold posToLeftRightFinish at h
  simp only [] at h
  split at h
  · exact Except.noConfusion h
  · rename_i st2 hst2
    simp only [Except.ok.injEq, Prod.mk.injEq] at h
    obtain ⟨rfl, -, -⟩ := h
    split at hst2
    · rcases Option.map_eq_some'.mp hst2 with ⟨c, -, rfl⟩
      exact ⟨rfl, rfl, rfl, rfl⟩
    · injection hst2 with h1
      subst h1
      exact ⟨rfl, rfl, rfl, rfl⟩

theorem posToTopFinish_frame {st : RState} {row col : ℤ} {pp : ℤ × ℤ}
    {x y : ℤ} {m : Score} {st' : RState} {p : Option (ℤ × ℤ)} {m' : Score}
    (h : posToTopFinish st row col pp x y m = .ok (st', p, m')) :
    st'.acqOrder = st.acqOrder ∧ st'.shift_tile_dep_tiles = st.shift_tile_dep_tiles ∧
      st'.size = st.size ∧ st'.px_size = st.px_size := by
  unfold posToTopFinish at h
  simp only [] at h
  split at h
  · exact Except.noConfusion h
  · rename_i st2 hst2
    simp only [Except.ok.injEq, Prod.mk.injEq] at h
    obtain ⟨rfl, -, -⟩ := h
    split at hst2
    · rcases Option.map_eq_some'.mp hst2 with ⟨c, -, rfl⟩
      exact ⟨rfl, rfl, rfl, rfl⟩
    · injection hst2 with h1
      subst h1
      exact ⟨rfl, rfl, rfl, rfl⟩

theorem posToLeftRight_frame {O : Oracle} {st : RState} {row col xdir : ℤ}
    {st' : RState} {p : Option (ℤ × ℤ)} {m' : Score}
    (h : posToLeftRight O st row col xdir = .ok (st', p, m')) :
    st'.acqOrder = st.acqOrder ∧ st'.shift_tile_dep_tiles = st.shift_tile_dep_tiles ∧
      st'.size = st.size ∧ st'.px_size = st.px_size := by
  unfold posToLeftRight at h
  simp only [] at h
  repeat' split at h
  all_goals first
    | exact Except.noConfusion h
    | exact posToLeftRightFinish_frame h
    | (simp only [Except.ok.injEq, Prod.mk.injEq] at h
       obtain ⟨rfl, -, -⟩ := h
       exact ⟨rfl, rfl, rfl, rfl⟩)

theorem posToTop_frame {O : Oracle} {st : RState} {row col : ℤ}
    {st' : RState} {p : Option (ℤ × ℤ)} {m' : Score}
    (h : posToTop O st row col = .ok (st', p, m')) :
    st'.acqOrder = st.acqOrder ∧ st'.shift_tile_dep_tiles = st.shift_tile_dep_tiles ∧
      st'.size = st.size ∧ st'.px_size = st.px_size := by
  unfold posToTop at h
  simp only [] at h
  repeat' split at h
  all_goals first
    | exact Except.noConfusion h
    | exact posToTopFinish_frame h
    | (simp only [Except.ok.injEq, Prod.mk.injEq] at h
       obtain ⟨rfl, -, -⟩ := h
       exact ⟨rfl, rfl, rfl, rfl⟩)

theorem horEstimate_frame {O : Oracle} {st : RState} {row col : ℤ}
    {st' : RState} {p : Option (ℤ × ℤ)} {m' : Score}
    (h : horEstimate O st row col = .ok (st', p, m')) :
    st'.acqOrder = st.acqOrder ∧ st'.shift_tile_dep_tiles = st.shift_tile_dep_tiles ∧
      st'.size = st.size ∧ st'.px_size = st.px_size := by
  unfold horEstimate at h
  repeat' split at h
  all_goals first
    | exact Except.noConfusion h
    | exact posToLeftRight_frame h
    | (simp only [Except.ok.injEq, Prod.mk.injEq] at h
       obtain ⟨rfl, -, -⟩ := h
       exact ⟨rfl, rfl, rfl, rfl⟩)

theorem verEstimate_frame {O : Oracle} {st : RState} {row col : ℤ}
    {st' : RState} {p : Option (ℤ × ℤ)} {m' : Score}
    (h : verEstimate O st row col = .ok (st', p, m')) :
    st'.acqOrder = st.acqOrder ∧ st'.shift_tile_dep_tiles = st.shift_tile_dep_tiles ∧
      st'.size = st.size ∧ st'.px_size = st.px_size := by
  unfold verEstimate at h
  repeat' split at h
  all_goals first
    | exact Except.noConfusion h
    | exact posToTop_frame h
    | (simp only [Except.ok.injEq, Prod.mk.injEq] at h
       obtain ⟨rfl, -, -⟩ := h
       exact ⟨rfl, rfl, rfl, rfl⟩)

theorem estimatesPair_frame {O : Oracle} {st : RState} {row col : ℤ}
    {st2 : RState} {pm pm2 : Option (ℤ × ℤ) × Score}
    (h : estimatesPair O st row col = .ok (st2, pm, pm2)) :
    st2.acqOrder = st.acqOrder ∧ st2.shift_tile_dep_tiles = st.shift_tile_dep_tiles ∧
      st2.size = st.size ∧ st2.px_size = st.px_size := by
  unfold estimatesPair at h
  split at h
  · exact Except.noConfusion h
  · rename_i st1 p m heq1
    split at h
    · exact Except.noConfusion h
    · rename_i stv p2 m2 heq2
      simp only [Except.ok.injEq, Prod.mk.injEq] at h
      obtain ⟨rfl, -, -⟩ := h
      obtain ⟨a1, b1, c1, d1⟩ := horEstimate_frame heq1
      obtain ⟨a2, b2, c2, d2⟩ := verEstimate_frame heq2
      exact ⟨a2.trans a1, b2.trans b1, c2.trans c1, d2.trans d1⟩

/-! ### The ordering guard of `_compute_registration` -/

theorem orderingGuard_ordering_iff (tiles : List (List (Option Tile))) (row col : ℤ) :
    orderingGuard tiles row col = some RegErr.orderingError ↔
      (1 ≤ row ∧ 1 ≤ col ∧ pyIdx2 tiles (row - 1) col = some none ∧
        pyIdx2 tiles row (col - 1) = some none) := by
  unfold orderingGuard
  repeat' split
  all_goals simp_all

theorem computeRegistration_ordering {O : Oracle} {st : RState} {tile : Tile}
    {row col : ℤ} :
    (computeRegistration O st tile row col).2 = some RegErr.orderingError ↔
      (1 ≤ row ∧ 1 ≤ col ∧ pyIdx2 st.tiles (row - 1) col = some none ∧
        pyIdx2 st.tiles row (col - 1) = some none) := by
  rw [← orderingGuard_ordering_iff st.tiles row col]
  unfold computeRegistration
  simp only []
  split
  · rename_i e hg
    constructor
    · intro hl
      have h1 := Option.some.inj hl
      rw [hg, h1]
    · intro hr
      exact hg.symm.trans hr
  · rename_i hg
    constructor
    · intro hl
      exfalso
      repeat' split at hl
      all_goals simp_all [estimatesPair_no_ordering]
    · intro hr
      rw [hg] at hr
      exact Option.noConfusion hr

theorem computeRegistration_ordering_state {O : Oracle} {st : RState} {tile : Tile}
    {row col : ℤ}
    (h : (computeRegistration O st tile row col).2 = some RegErr.orderingError) :
    (computeRegistration O st tile row col).1 = st := by
  cases hg : orderingGuard st.tiles row col with
  | some e =>
    unfold computeRegistration
    rw [hg]
  | none =>
    exfalso
    unfold computeRegistration at h
    rw [hg] at h
    simp only [] at h
    repeat' split at h
    all_goals simp_all [estimatesPair_no_ordering]

theorem computeRegistration_ok {O : Oracle} {st : RState} {tile : Tile} {row col : ℤ}
    {st' : RState} (h : computeRegistration O st tile row col = (st', none)) :
    st'.acqOrder = st.acqOrder ++ [(row, col)] ∧
      st'.shift_tile_dep_tiles = st.shift_tile_dep_tiles ∧
      st'.size = st.size ∧ st'.px_size = st.px_size := by
  unfold computeRegistration at h
  simp only [] at h
  split at h
  · simp at h
  · split at h
    · simp at h
    · rename_i tiles1 hset
      split at h
      · simp at h
      · rename_i st2 pm pm2 hpair
        split at h
        · simp at h
        · rename_i shifts1 hsh
          simp only [Prod.mk.injEq] at h
          obtain ⟨h1, -⟩ := h
          subst h1
          obtain ⟨a, b, c, d⟩ := estimatesPair_frame hpair
          refine ⟨?_, ?_, ?_, ?_⟩
          · show st2.acqOrder ++ [(row, col)] = st.acqOrder ++ [(row, col)]
            rw [a]
          · show st2.shift_tile_dep_tiles = st.shift_tile_dep_tiles
            rw [b]
          · show st2.size = st.size
            rw [c]
          · show st2.px_size = st.px_size
            rw [d]

/-! ### `placeTile` frame lemmas -/

theorem placeTile_frame {st : RState} {tile : Tile} {st1 : RState} {r c : ℤ}
    (h : placeTile st tile = some (st1, r, c)) :
    st1.acqOrder = st.acqOrder ∧ st1.shift_tile_dep_tiles = st.shift_tile_dep_tiles ∧
      st1.size = st.size ∧ st1.px_size = st.px_size := by
  unfold placeTile at h
  simp only [] at h
  split at h
  · exact Option.noConfusion h
  · rename_i pp md_prev
    simp only [Option.some.injEq, Prod.mk.injEq] at h
    obtain ⟨h1, -⟩ := h
    subst h1
    refine ⟨?_, ?_, ?_, ?_⟩ <;> (repeat' split) <;> rfl

theorem filterMap_id_replicate_none {α : Type} (n : ℕ) :
    (List.replicate n (none : Option α)).filterMap id = [] := by
  induction n with
  | zero => rfl
  | succ k ih => simpa [List.replicate_succ, List.filterMap_cons] using ih

theorem join_map_append_none {α : Type} (l : List (List (Option α))) :
    ((l.map (fun row => row ++ [none])).join).filterMap id = (l.join).filterMap id := by
  induction l with
  | nil => rfl
  | cons a l ih =>
    show ((a ++ [none]) ++ (l.map (fun row => row ++ [none])).join).filterMap id
        = (a ++ l.join).filterMap id
    rw [List.filterMap_append, List.filterMap_append, List.filterMap_append, ih]
    simp [List.filterMap_cons]

theorem join_append_replicate_none {α : Type} (l : List (List (Option α))) (n : ℕ) :
    (((l ++ [List.replicate n (none : Option α)]).join)).filterMap id =
      (l.join).filterMap id := by
  simp [List.join_append, List.filterMap_append, filterMap_id_replicate_none, List.join]

theorem placeTile_shift_vals {st : RState} {tile : Tile} {st1 : RState} {r c : ℤ}
    (h : placeTile st tile = some (st1, r, c)) :
    st1.shifts.join.filterMap id = st.shifts.join.filterMap id := by
  unfold placeTile at h
  simp only [] at h
  split at h
  · exact Option.noConfusion h
  · rename_i pp md_prev
    simp only [Option.some.injEq, Prod.mk.injEq] at h
    obtain ⟨h1, -⟩ := h
    subst h1
    repeat' split
    all_goals first
      | rfl
      | exact join_append_replicate_none st.shifts st.nx
      | exact join_map_append_none st.shifts

/-! ### `addTile` decomposition lemmas -/

theorem depExtend_frame (st : RState) (deps : Option (List Tile)) :
    (depExtend st deps).tiles = st.tiles ∧ (depExtend st deps).acqOrder = st.acqOrder ∧
      (depExtend st deps).shifts = st.shifts ∧ (depExtend st deps).size = st.size ∧
      (depExtend st deps).px_size = st.px_size := by
  cases deps <;> exact ⟨rfl, rfl, rfl, rfl, rfl⟩

theorem appendDepOffsets_frame (st : RState) (tile : Tile) (dl : List Tile) :
    (appendDepOffsets st tile dl).tiles = st.tiles ∧
      (appendDepOffsets st tile dl).acqOrder = st.acqOrder ∧
      (appendDepOffsets st tile dl).shifts = st.shifts ∧
      (appendDepOffsets st tile dl).size = st.size ∧
      (appendDepOffsets st tile dl).px_size = st.px_size := by
  cases dl <;> exact ⟨rfl, rfl, rfl, rfl, rfl⟩

/-- On a state that already has a first tile of the same shape, `addTile`
reduces to slot computation followed by registration. -/
theorem addTile_nonfirst {O : Oracle} {st : RState} {tile : Tile}
    {deps : Option (List Tile)} {t0 : Tile}
    (h0 : pyIdx2 st.tiles 0 0 = some (some t0)) (hsh : tile.shape = t0.shape) :
    addTile O st tile deps =
      match placeTile (depExtend st deps) tile with
      | none => (depExtend st deps, some RegErr.indexError)
      | some (st1, r, c) =>
        computeRegistration O (appendDepOffsets st1 tile (deps.getD [])) tile r c := by
  have h0' : pyIdx2 (depExtend st deps).tiles 0 0 = some (some t0) := by
    cases deps <;> exact h0
  unfold addTile
  simp only []
  rw [h0']
  simp only []
  rw [if_neg (not_not_intro hsh)]

/-- C5: `addTile` raises the ordering error exactly when the computed slot
`(r, c)` of the new tile has `r >= 1` and `c >= 1` while both the slot above
and the slot to the left are still empty; on that error no position is
stored: the acquisition order and the set of stored shifts are unchanged. -/
theorem C5_ordering (O : Oracle) (st : RState) (tile : Tile) (deps : Option (List Tile))
    (t0 : Tile) (h0 : pyIdx2 st.tiles 0 0 = some (some t0)) (hsh : tile.shape = t0.shape) :
    ((addTile O st tile deps).2 = some RegErr.orderingError ↔
      (∃ st1 r c, placeTile (depExtend st deps) tile = some (st1, r, c) ∧ 1 ≤ r ∧ 1 ≤ c ∧
        pyIdx2 st1.tiles (r - 1) c = some none ∧
        pyIdx2 st1.tiles r (c - 1) = some none)) ∧
    ((addTile O st tile deps).2 = some RegErr.orderingError →
      (addTile O st tile deps).1.acqOrder = st.acqOrder ∧
      (addTile O st tile deps).1.shifts.join.filterMap id =
        st.shifts.join.filterMap id) := by
  rw [addTile_nonfirst h0 hsh]
  cases hpt : placeTile (depExtend st deps) tile with
  | none =>
    simp only []
    constructor
    · constructor
      · intro hl
        simp at hl
      · rintro ⟨st1, r, c, hq, -⟩
        exact Option.noConfusion hq
    · intro hl
      simp at hl
  | some q =>
    obtain ⟨st1, r, c⟩ := q
    simp only []
    obtain ⟨ap1, ap2, ap3, ap4, ap5⟩ := appendDepOffsets_frame st1 tile (deps.getD [])
    obtain ⟨pf1, pf2, pf3, pf4⟩ := placeTile_frame hpt
    obtain ⟨de1, de2, de3, de4, de5⟩ := depExtend_frame st deps
    constructor
    · rw [computeRegistration_ordering]
      constructor
      · rintro ⟨hr, hc, hu, hl2⟩
        rw [ap1] at hu hl2
        exact ⟨st1, r, c, rfl, hr, hc, hu, hl2⟩
      · rintro ⟨st1', r', c', hq, hr, hc, hu, hl2⟩
        have h2 := Option.some.inj hq
        simp only [Prod.mk.injEq] at h2
        obtain ⟨rfl, rfl, rfl⟩ := h2
        rw [ap1]
        exact ⟨hr, hc, hu, hl2⟩
    · intro hl
      have hst := computeRegistration_ordering_state hl
      rw [hst]
      constructor
      · rw [ap2, pf1, de2]
      · rw [ap3]
        rw [placeTile_shift_vals hpt, de3]

/-- C5 witness: on the C5 fixture (full first column plus the bottom row) the
sixth tile lands at slot `(1, 2)` whose top and left neighbours are empty;
`addTile` raises the ordering error and stores nothing. -/
theorem C5_ordering_witness :
    (addTile zeroOracle stC5 tileC5 none).1.acqOrder = stC5.acqOrder ∧
      (addTile zeroOracle stC5 tileC5 none).1.shifts.join.filterMap id =
        stC5.shifts.join.filterMap id :=
  (C5_ordering zeroOracle stC5 tileC5 none (tileAt 0 0) rfl rfl).2 (by decide)

/-- C6: the first `addTile` call of a session establishes the pixel shape —
it succeeds, records the tile at slot `(0,0)` and sets `size` to the tile's
shape — and every later call whose tile's shape differs from the shape of
the recorded first tile raises `ShapeMismatch`, leaving the grid (tiles,
shifts, acquisition order, established size) unchanged. -/
theorem C6_shape_mismatch (O : Oracle) (st : RState) (tile t0 : Tile)
    (deps : Option (List Tile)) :
    ((addTile O initState tile deps).2 = none ∧
      (addTile O initState tile deps).1.size = tile.shape ∧
      pyIdx2 (addTile O initState tile deps).1.tiles 0 0 = some (some tile)) ∧
    (pyIdx2 st.tiles 0 0 = some (some t0) → tile.shape ≠ t0.shape →
      (addTile O st tile deps).2 = some RegErr.shapeMismatch ∧
      (addTile O st tile deps).1.tiles = st.tiles ∧
      (addTile O st tile deps).1.shifts = st.shifts ∧
      (addTile O st tile deps).1.acqOrder = st.acqOrder ∧
      (addTile O st tile deps).1.size = st.size) := by
  constructor
  · refine ⟨?_, ?_, ?_⟩ <;> rcases deps with _ | (_ | ⟨d, ds⟩) <;> rfl
  · intro h0 hne
    have h0' : pyIdx2 (depExtend st deps).tiles 0 0 = some (some t0) := by
      cases deps <;> exact h0
    have had : addTile O st tile deps = (depExtend st deps, some RegErr.shapeMismatch) := by
      unfold addTile
      simp only []
      rw [h0']
      simp only []
      rw [if_pos hne]
    rw [had]
    obtain ⟨de1, de2, de3, de4, de5⟩ := depExtend_frame st deps
    exact ⟨rfl, de1, de3, de2, de4⟩

/-- C6 witness: the first call on the empty session with a 4x4 tile succeeds
and establishes shape `(4, 4)`; adding a 5x5 tile to the two-tile C2 fixture
raises `ShapeMismatch` and leaves the grid unchanged. -/
theorem C6_shape_mismatch_witness :
    ((addTile zeroOracle initState (tileAt 0 0) none).2 = none ∧
      (addTile zeroOracle initState (tileAt 0 0) none).1.size = (tileAt 0 0).shape ∧
      pyIdx2 (addTile zeroOracle initState (tileAt 0 0) none).1.tiles 0 0 =
        some (some (tileAt 0 0))) ∧
    ((addTile zeroOracle stC2 tileBig none).2 = some RegErr.shapeMismatch ∧
      (addTile zeroOracle stC2 tileBig none).1.tiles = stC2.tiles ∧
      (addTile zeroOracle stC2 tileBig none).1.shifts = stC2.shifts ∧
      (addTile zeroOracle stC2 tileBig none).1.acqOrder = stC2.acqOrder ∧
      (addTile zeroOracle stC2 tileBig none).1.size = stC2.size) :=
  ⟨(C6_shape_mismatch zeroOracle stC2 (tileAt 0 0) (tileAt 0 0) none).1,
   (C6_shape_mismatch zeroOracle stC2 tileBig (tileAt 0 0) none).2 rfl (by decide)⟩

theorem appendDep_stdt_cons (st1 : RState) (tile : Tile) (d : Tile) (ds : List Tile)
    (l : List (List (Frac × Frac))) (h : st1.shift_tile_dep_tiles = l ++ [[]]) :
    (appendDepOffsets st1 tile (d :: ds)).shift_tile_dep_tiles =
      l ++ [depOffsets tile (d :: ds)] := by
  show st1.shift_tile_dep_tiles.dropLast ++
      [st1.shift_tile_dep_tiles.getLast?.getD [] ++ depOffsets tile (d :: ds)] =
    l ++ [depOffsets tile (d :: ds)]
  rw [h, List.dropLast_concat, List.getLast?_concat]
  simp

theorem depExtend_appendDep_stdt (st : RState) (tile : Tile) (deps : Option (List Tile))
    (st1 : RState)
    (h : st1.shift_tile_dep_tiles = (depExtend st deps).shift_tile_dep_tiles) :
    (appendDepOffsets st1 tile (deps.getD [])).shift_tile_dep_tiles =
      st.shift_tile_dep_tiles ++ callOffsets (tile, deps) := by
  cases deps with
  | none => simpa [callOffsets] using h
  | some dl =>
    cases dl with
    | nil =>
      show st1.shift_tile_dep_tiles = st.shift_tile_dep_tiles ++ [depOffsets tile []]
      rw [h]
      rfl
    | cons d ds =>
      exact appendDep_stdt_cons st1 tile d ds st.shift_tile_dep_tiles (by rw [h]; rfl)

theorem addTile_ok {O : Oracle} {st : RState} {tile : Tile} {deps : Option (List Tile)}
    {st' : RState} (h : addTile O st tile deps = (st', none)) :
    st'.shift_tile_dep_tiles = st.shift_tile_dep_tiles ++ callOffsets (tile, deps) ∧
    st'.acqOrder.length = st.acqOrder.length + 1 := by
  unfold addTile at h
  simp only [] at h
  split at h
  · simp at h
  · obtain ⟨ha, hb, -, -⟩ := computeRegistration_ok h
    constructor
    · rw [hb]
      refine depExtend_appendDep_stdt st tile deps _ ?_
      rfl
    · rw [ha, List.length_append, (appendDepOffsets_frame _ _ _).2.1]
      cases deps <;> rfl
  · rename_i t0 heq0
    split at h
    · simp at h
    · split at h
      · simp at h
      · rename_i st1 r c hpt
        obtain ⟨ha, hb, -, -⟩ := computeRegistration_ok h
        obtain ⟨pf1, pf2, pf3, pf4⟩ := placeTile_frame hpt
        constructor
        · rw [hb]
          exact depExtend_appendDep_stdt st tile deps st1 pf2
        · rw [ha, List.length_append, (appendDepOffsets_frame _ _ _).2.1, pf1]
          cases deps <;> rfl

theorem runAdds_stuck (O : Oracle) (st : RState) (e : RegErr)
    (cs : List (Tile × Option (List Tile))) :
    runAdds O (st, some e) cs = (st, some e) := by
  cases cs <;> rfl

theorem runAdds_ok_inv (O : Oracle) (cs : List (Tile × Option (List Tile))) :
    ∀ st : RState, (runAdds O (st, none) cs).2 = none →
      (runAdds O (st, none) cs).1.shift_tile_dep_tiles =
        st.shift_tile_dep_tiles ++ (cs.map callOffsets).join ∧
      (runAdds O (st, none) cs).1.acqOrder.length =
        st.acqOrder.length + cs.length := by
  induction cs with
  | nil =>
    intro st _
    constructor
    · show st.shift_tile_dep_tiles = st.shift_tile_dep_tiles ++ []
      simp
    · rfl
  | cons c cs ih =>
    intro st hrun
    have hstep : runAdds O (st, none) (c :: cs) = runAdds O (addTile O st c.1 c.2) cs := rfl
    rw [hstep] at hrun ⊢
    cases hadd : addTile O st c.1 c.2 with
    | mk st1 err =>
      rw [hadd] at hrun
      cases err with
      | some e =>
        rw [runAdds_stuck] at hrun
        exact Option.noConfusion hrun
      | none =>
        obtain ⟨ia, ib⟩ := ih st1 hrun
        obtain ⟨aa, ab⟩ := addTile_ok hadd
        constructor
        · rw [ia, aa]
          show st.shift_tile_dep_tiles ++ callOffsets c ++ (cs.map callOffsets).join =
            st.shift_tile_dep_tiles ++ (callOffsets c ++ (cs.map callOffsets).join)
          rw [List.append_assoc]
        · rw [ib, ab]
          simp only [List.length_cons]
          omega

theorem optMap_length {α β : Type} (f : α → Option β) :
    ∀ (l : List α) (r : List β), optMap f l = some r → r.length = l.length := by
  intro l
  induction l with
  | nil =>
    intro r h
    cases h
    rfl
  | cons a l ih =>
    intro r h
    unfold optMap at h
    split at h
    · rename_i b bs hb hbs
      cases h
      simpa using ih bs hbs
    · exact Option.noConfusion h

theorem join_singletons {α β : Type} (f : α → β) (l : List α) :
    (l.map (fun x => [f x])).join = l.map f := by
  induction l with
  | nil => rfl
  | cons a l ih =>
    show [f a] ++ (l.map (fun x => [f x])).join = f a :: l.map f
    rw [ih]
    rfl

theorem getPositions_eq {st : RState} {tps : List (Frac × Frac)}
    {dps : List (List (Frac × Frac))}
    (h : getPositions st = some (tps, dps)) :
    tps.length = st.acqOrder.length ∧
    dps = (tps.zip st.shift_tile_dep_tiles).map
      (fun p => p.2.map (fun sdt => (p.1.1.add sdt.1, p.1.2.add sdt.2))) := by
  unfold getPositions at h
  simp only [] at h
  repeat' split at h
  all_goals first
    | exact Option.noConfusion h
    | (rename_i tps' hmap
       have h2 := Option.some.inj h
       simp only [Prod.mk.injEq] at h2
       obtain ⟨rfl, rfl⟩ := h2
       exact ⟨optMap_length _ _ _ hmap, rfl⟩)

/-- C7 (amended): when every `addTile` call passes a dependent-tile list
(possibly empty) and the whole sequence succeeds, the dependent offsets are
stored once per call, the position list has one entry per call, and the
second list of `getPositions` pairs each call's resolved main position with
exactly that call's captured offsets: every dependent position is its own
main tile's resolved position plus its fixed offset. -/
theorem C7_amended (O : Oracle) (cs : List (Tile × List Tile))
    (tps : List (Frac × Frac)) (dps : List (List (Frac × Frac)))
    (hrun : (runAdds O (initState, none) (cs.map (fun c => (c.1, some c.2)))).2 = none)
    (hget : getPositions (runAdds O (initState, none)
        (cs.map (fun c => (c.1, some c.2)))).1 = some (tps, dps)) :
    tps.length = cs.length ∧
    dps = (tps.zip (cs.map (fun c => depOffsets c.1 c.2))).map
      (fun p => p.2.map (fun o => (p.1.1.add o.1, p.1.2.add o.2))) := by
  obtain ⟨hl, hd⟩ := getPositions_eq hget
  obtain ⟨hstdt, hacq⟩ := runAdds_ok_inv O (cs.map (fun c => (c.1, some c.2))) initState hrun
  have e1 : ((cs.map (fun c => (c.1, some c.2))).map callOffsets).join =
      cs.map (fun c => depOffsets c.1 c.2) := by
    rw [List.map_map]
    have e0 : (callOffsets ∘ fun c : Tile × List Tile => (c.1, some c.2)) =
        (fun c : Tile × List Tile => [depOffsets c.1 c.2]) := by
      funext c
      rfl
    rw [e0, join_singletons]
  have e2 : (runAdds O (initState, none)
      (cs.map (fun c => (c.1, some c.2)))).1.shift_tile_dep_tiles =
      cs.map (fun c => depOffsets c.1 c.2) := by
    rw [hstdt, e1]
    rfl
  constructor
  · rw [hl, hacq]
    simp [initState]
  · rw [hd, e2]

/-- C7 (amended) witness: a single call with an empty dependent list yields
one position entry and one (empty) dependent entry correctly attached. -/
theorem C7_amended_witness :
    ([((⟨0, 1⟩ : Frac), (⟨0, 1⟩ : Frac))].length = [(tileAt 0 0, ([] : List Tile))].length) ∧
    ([[]] : List (List (Frac × Frac))) =
      (([((⟨0, 1⟩ : Frac), (⟨0, 1⟩ : Frac))].zip
          ([(tileAt 0 0, ([] : List Tile))].map (fun c => depOffsets c.1 c.2))).map
        (fun p => p.2.map (fun o => (p.1.1.add o.1, p.1.2.add o.2)))) :=
  C7_amended zeroOracle [(tileAt 0 0, [])] [(⟨0, 1⟩, ⟨0, 1⟩)] [[]] (by decide) rfl

/-- C7 counterexample: in `runC7` the first call passes no dependent list and
the second call carries one dependent at fixed offset `(1, 1)`; the single
returned dependent position equals the FIRST main position plus `(1, 1)`
(the zip misaligns) and differs from its own main tile's position plus
`(1, 1)`. -/
theorem C7_counterexample :
    (getPositions runC7.1).map (fun p =>
      match p.1, p.2 with
      | [m1, m2], [[d]] =>
        some (d.1.beq (m2.1.add (Frac.ofInt 1)) && d.2.beq (m2.2.add (Frac.ofInt 1)),
              d.1.beq (m1.1.add (Frac.ofInt 1)) && d.2.beq (m1.2.add (Frac.ofInt 1)))
      | _, _ => none) = some (some (false, true)) := by
  decide

theorem join_callOffsets_length (cs : List (Tile × Option (List Tile))) :
    ((cs.map callOffsets).join).length = cs.countP (fun c => c.2.isSome) := by
  induction cs with
  | nil => rfl
  | cons c cs ih =>
    show (callOffsets c ++ (cs.map callOffsets).join).length = _
    rw [List.length_append, ih, List.countP_cons]
    rcases c with ⟨t, _ | dl⟩ <;> simp [callOffsets] <;> omega

theorem idAddTile_dep_pos (st : IdState) (tile : Tile) (deps : Option (List Tile)) :
    (idAddTile st tile deps).dep_tiles_pos =
      st.dep_tiles_pos ++ idCallDeps (tile, deps) := by
  rcases deps with _ | (_ | ⟨d, ds⟩) <;> simp [idAddTile, idCallDeps]

theorem runIdAdds_dep_pos (cs : List (Tile × Option (List Tile))) :
    ∀ st : IdState, (runIdAdds st cs).dep_tiles_pos =
      st.dep_tiles_pos ++ (cs.map idCallDeps).join := by
  induction cs with
  | nil =>
    intro st
    simp [runIdAdds]
  | cons c cs ih =>
    intro st
    show (runIdAdds (idAddTile st c.1 c.2) cs).dep_tiles_pos = _
    rw [ih, idAddTile_dep_pos, List.append_assoc]
    rfl

/-- C8 (amended): for a successful `ShiftRegistrar` sequence the first list
of `getPositions` has one entry per call, but the second has one entry per
call that passed a dependent list (`dependent_tiles` not `None`); for
`IdentityRegistrar` the position list has one entry per call and the
dependent list one entry per call whose dependent list was truthy
(nonempty), holding those dependents' positions in insertion order. -/
theorem C8_amended (O : Oracle) (cs : List (Tile × Option (List Tile)))
    (tps : List (Frac × Frac)) (dps : List (List (Frac × Frac)))
    (hrun : (runAdds O (initState, none) cs).2 = none)
    (hget : getPositions (runAdds O (initState, none) cs).1 = some (tps, dps)) :
    tps.length = cs.length ∧
    dps.length = cs.countP (fun c => c.2.isSome) ∧
    (runIdAdds idInit cs).tile_pos.length = cs.length ∧
    (runIdAdds idInit cs).dep_tiles_pos = (cs.map idCallDeps).join := by
  obtain ⟨hl, hd⟩ := getPositions_eq hget
  obtain ⟨hstdt, hacq⟩ := runAdds_ok_inv O cs initState hrun
  have hstl : (runAdds O (initState, none) cs).1.shift_tile_dep_tiles.length =
      cs.countP (fun c => c.2.isSome) := by
    rw [hstdt]
    show (((cs.map callOffsets).join)).length = _
    exact join_callOffsets_length cs
  have hcle : cs.countP (fun c => c.2.isSome) ≤ cs.length := List.countP_le_length _
  refine ⟨?_, ?_, ?_, ?_⟩
  · rw [hl, hacq]
    show 0 + cs.length = cs.length
    exact Nat.zero_add _
  · rw [hd, List.length_map, List.length_zip, hl, hacq, hstl]
    show min (0 + cs.length) _ = _
    rw [Nat.zero_add]
    exact Nat.min_eq_right hcle
  · rw [runIdAdds_tile_pos]
    simp [idInit]
  · rw [runIdAdds_dep_pos]
    rfl

/-- C8 (amended) witness: one call with `dependent_tiles=None` gives one
position entry and zero dependent entries for both strategies. -/
theorem C8_amended_witness :
    ([((⟨0, 1⟩ : Frac), (⟨0, 1⟩ : Frac))].length =
        [(tileAt 0 0, (none : Option (List Tile)))].length) ∧
    ([] : List (List (Frac × Frac))).length =
      [(tileAt 0 0, (none : Option (List Tile)))].countP (fun c => c.2.isSome) ∧
    (runIdAdds idInit [(tileAt 0 0, none)]).tile_pos.length =
      [(tileAt 0 0, (none : Option (List Tile)))].length ∧
    (runIdAdds idInit [(tileAt 0 0, none)]).dep_tiles_pos =
      ([(tileAt 0 0, (none : Option (List Tile)))].map idCallDeps).join :=
  C8_amended zeroOracle [(tileAt 0 0, none)] [(⟨0, 1⟩, ⟨0, 1⟩)] [] (by decide) rfl

/-- C8 counterexample: two added main tiles where the first call passes
`None` (Shift) or the empty list (Identity) as dependents: `getPositions`
returns two main positions but only ONE dependent entry for both
strategies, not one entry per added main tile. -/
theorem C8_counterexample :
    (getPositions runC7.1).map (fun p => (p.1.length, p.2.length)) = some (2, 1) ∧
    (idGetPositions (runIdAdds idInit
      [(tileAt 0 0, some []), (tileAt 3 0, some [tileAt 4 1])])).1.length = 2 ∧
    (idGetPositions (runIdAdds idInit
      [(tileAt 0 0, some []), (tileAt 3 0, some [tileAt 4 1])])).2.length = 1 := by
  decide
